/-
  Verification of the html-to-pptx-converter conversion pipeline.

  Shallow embedding of the core pipeline of the repository:
  LinkHandler.normalizeUrl, TableHandler.processTable, HTMLParser
  (extractSections / extractImages / extractTables / extractLists /
  extractFormattedText / parseHTML), TextElementGenerator
  (parseFormatting / generateComplexTextElements),
  ImageHandler.calculateOptimalDimensions and SlideCreator
  (createSlides / createSlideFromSection / addElementToSlide).

  JavaScript strings are modelled as Lean String / List Char, JS numbers as
  Int / Rat (parseInt results as Option Int, NaN = none), the DOM as an
  inductive tree, exceptions as Except, and the PptxGenJS backend as a list
  of recorded calls.
-/
import Mathlib

namespace HtmlToPptx

/-! ## Character and string helpers (JS semantics) -/

/-- ASCII letter, the character class of the source regexes `[a-z]+` with
the `i` flag. -/
def isAsciiLetter (c : Char) : Bool :=
  ('a' ≤ c && c ≤ 'z') || ('A' ≤ c && c ≤ 'Z')

/-- JS whitespace as used by `String.prototype.trim` (the subset relevant
to the documents handled here). -/
def isJsWs (c : Char) : Bool :=
  c = ' ' || c = '\t' || c = '\n' || c = '\r'

/-- Drop the maximal leading run of ASCII letters. -/
def dropLetters : List Char → List Char
  | [] => []
  | c :: cs => if isAsciiLetter c then dropLetters cs else c :: cs

/-- Exact-prefix test on character lists (JS `String.prototype.startsWith`). -/
def startsWithChars : List Char → List Char → Bool
  | [], _ => true
  | _ :: _, [] => false
  | p :: ps, c :: cs => p = c && startsWithChars ps cs

/-- ASCII lowering used to model case-insensitive regexes. -/
def lowerChar (c : Char) : Char := c.toLower

/-- Case-insensitive prefix test (the `i` regex flag). -/
def startsWithCI (p l : List Char) : Bool :=
  startsWithChars (p.map lowerChar) (l.map lowerChar)

/-- JS `trim`: strip leading and trailing whitespace. -/
def trimChars (l : List Char) : List Char :=
  ((l.dropWhile isJsWs).reverse.dropWhile isJsWs).reverse

/-- JS `trim` on `String`. -/
def jsTrim (s : String) : String := String.mk (trimChars s.toList)

/-- Substring containment on character lists (JS `String.prototype.includes`). -/
def containsChars (pat : List Char) : List Char → Bool
  | [] => startsWithChars pat []
  | c :: cs => startsWithChars pat (c :: cs) || containsChars pat cs

/-! ## LinkHandler.normalizeUrl (src/services/conversion/LinkHandler.ts 49-89) -/

/-- `url.match(/^[a-z]+:/i)`: a non-empty run of letters followed by a colon.
Since the letter class excludes `:`, regex backtracking is equivalent to
taking the maximal letter run. -/
def hasSchemeColon (l : List Char) : Bool :=
  match l with
  | [] => false
  | c :: _ =>
    isAsciiLetter c &&
      (match dropLetters l with
       | ':' :: _ => true
       | _ => false)

/-- `url.match(/^[a-z]+:\/\//i)`: letters, a colon, two slashes. -/
def hasSchemeSlashes (l : List Char) : Bool :=
  match l with
  | [] => false
  | c :: _ =>
    isAsciiLetter c &&
      (match dropLetters l with
       | ':' :: '/' :: '/' :: _ => true
       | _ => false)

/-- `url.match(/^https?:/i)`. -/
def isHttpColonCI (l : List Char) : Bool :=
  startsWithCI "http:".toList l || startsWithCI "https:".toList l

def httpSlashesChars : List Char := "http://".toList

def httpsSlashesChars : List Char := "https://".toList

/-- `LinkHandler.normalizeUrl`, branch for branch.  The final
`url.replace('http://', 'https://')` is guarded by `startsWith('http://')`,
so replacing the first occurrence is a prefix rewrite. -/
def normalizeUrlChars (l : List Char) : List Char :=
  if l = [] then ['#']
  else if startsWithChars ['#'] l then l
  else if hasSchemeColon l && !isHttpColonCI l then l
  else if !hasSchemeSlashes l then
    if !startsWithChars ['/'] l then httpsSlashesChars ++ l else l
  else if startsWithChars httpSlashesChars l then httpsSlashesChars ++ l.drop 7
  else l

def normalizeUrl (s : String) : String := String.mk (normalizeUrlChars s.toList)

/-- The claim's reading of `normalizeUrl` (C4), cascade in the claim's
order with "has a scheme" read as a `letters:` prefix: this is the
spec-side definition used to compare against the code. -/
def specClaimedNormalizeUrlChars (l : List Char) : List Char :=
  if l = [] then ['#']
  else if startsWithChars ['#'] l then l
  else if hasSchemeColon l && !isHttpColonCI l then l
  else if !hasSchemeColon l && startsWithChars ['/'] l then l
  else if !hasSchemeColon l then httpsSlashesChars ++ l
  else if startsWithChars httpSlashesChars l then httpsSlashesChars ++ l.drop 7
  else l

def specClaimedNormalizeUrl (s : String) : String :=
  String.mk (specClaimedNormalizeUrlChars s.toList)

/-! ## TableHandler (src/services/conversion/TableHandler.ts) -/

/-- Table style fields the extractor and handler read or write.  The dynamic
`Record<string, any>` of the source is modelled by the typed fields the code
actually touches; `cellDetails` (merged-cell metadata) is not modelled, as no
verified claim depends on it. -/
structure TableStyle where
  width : String := ""
  border : Bool := false
  cellPadding : String := ""
  cellSpacing : String := ""
  backgroundColor : String := ""
  textAlign : String := ""
  deriving Repr, DecidableEq

structure TableResource where
  headers : List String
  rows : List (List String)
  style : TableStyle := {}
  deriving Repr, DecidableEq

/-- Right-pad a list with empty strings up to `n` entries, the effect of the
source's `while (xs.length < maxColumns) xs.push('')` loops. -/
def padTo (n : Nat) (xs : List String) : List String :=
  xs ++ List.replicate (n - xs.length) ""

/-- `maxColumns` as computed in `normalizeTableDimensions`. -/
def maxColumns (t : TableResource) : Nat :=
  t.rows.foldl (fun m row => max m row.length) t.headers.length

/-- `TableHandler.normalizeTableDimensions` (mutation rendered as a pure
update). -/
def normalizeTableDimensions (t : TableResource) : TableResource :=
  let m := maxColumns t
  { t with headers := padTo m t.headers, rows := t.rows.map (padTo m) }

/-- JS `a || b` for strings: empty string is falsy. -/
def jsOrStr (a b : String) : String := if a = "" then b else a

/-- `TableHandler.processTable`: deep copy, normalize, fill style defaults.
`style.border !== undefined ? style.border : true` keeps the extractor's
boolean, which is always defined in this model. -/
def processTable (t : TableResource) : TableResource :=
  let p := normalizeTableDimensions t
  { p with style :=
      { p.style with
          width := jsOrStr p.style.width "100%"
          cellPadding := jsOrStr p.style.cellPadding "5"
          backgroundColor := jsOrStr p.style.backgroundColor "transparent"
          textAlign := jsOrStr p.style.textAlign "left" } }

/-! ## DOM model

The browser DOM the parser works on: element and text nodes.  Attribute
order is the document's; tag names are kept lowercase (the source compares
`tagName` against uppercase literals, which is equivalent). -/

inductive Dom where
  | text (s : String) : Dom
  | elem (tag : String) (attrs : List (String × String)) (children : List Dom) : Dom

/-- `getAttribute`: `none` models a `null` return. -/
def getAttr (attrs : List (String × String)) (name : String) : Option String :=
  (attrs.find? (fun p => p.1 = name)).map (·.2)

mutual

/-- `Node.textContent`. -/
def textContent : Dom → String
  | .text s => s
  | .elem _ _ cs => textContentList cs

def textContentList : List Dom → String
  | [] => ""
  | c :: cs => textContent c ++ textContentList cs

end

mutual

/-- `Element.outerHTML` (serialization; entity escaping is not modelled,
the documents in the claims contain none). -/
def serialize : Dom → String
  | .text s => s
  | .elem tag attrs cs =>
    "<" ++ tag ++ serializeAttrs attrs ++ ">" ++ serializeList cs ++ "</" ++ tag ++ ">"

def serializeAttrs : List (String × String) → String
  | [] => ""
  | (n, v) :: rest => " " ++ n ++ "=\x22" ++ v ++ "\x22" ++ serializeAttrs rest

/-- `innerHTML` of an element with children `cs`. -/
def serializeList : List Dom → String
  | [] => ""
  | c :: cs => serialize c ++ serializeList cs

end

mutual

/-- `querySelectorAll` for a disjunction of tag-name selectors: document
(pre-order) matches of a node at path `p`, paired with their path
(child-index chain).  The path plays the role of JS object identity. -/
def collectNodePaths (tags : List String) (p : List Nat) : Dom → List (List Nat × Dom)
  | .text _ => []
  | .elem t a cs =>
    (if t ∈ tags then [(p, Dom.elem t a cs)] else []) ++ collectForestPaths tags p 0 cs

def collectForestPaths (tags : List String) (p : List Nat) (i : Nat) :
    List Dom → List (List Nat × Dom)
  | [] => []
  | c :: cs => collectNodePaths tags (p ++ [i]) c ++ collectForestPaths tags p (i + 1) cs

end

/-- Matches of `querySelectorAll` over a forest, with paths. -/
def collectWithPaths (tags : List String) (p : List Nat) (i : Nat) (cs : List Dom) :
    List (List Nat × Dom) :=
  collectForestPaths tags p i cs

/-- `querySelectorAll` returning the matched nodes only. -/
def collectElems (tags : List String) (cs : List Dom) : List Dom :=
  (collectWithPaths tags [] 0 cs).map (·.2)

/-- Children of the element at `path` inside the forest (the forest itself
for the empty path). -/
def childrenAt (cs : List Dom) : List Nat → List Dom
  | [] => cs
  | i :: p =>
    match cs.get? i with
    | some (.elem _ _ ccs) => childrenAt ccs p
    | _ => []

/-! ## JS numbers: parseInt and truthiness -/

def isDigit (c : Char) : Bool := '0' ≤ c && c ≤ '9'

def digitsToNat : List Char → Nat → Nat
  | [], acc => acc
  | c :: cs, acc => digitsToNat cs (acc * 10 + (c.toNat - '0'.toNat))

/-- JS `parseInt(s, 10)`: skip leading whitespace, optional sign, then the
maximal digit run; `NaN` (here `none`) if no digit follows. -/
def jsParseInt (s : String) : Option Int :=
  let l := s.toList.dropWhile isJsWs
  let (sign, rest) : Int × List Char :=
    match l with
    | '-' :: r => (-1, r)
    | '+' :: r => (1, r)
    | r => (1, r)
  let ds := rest.takeWhile isDigit
  if ds = [] then none else some (sign * (digitsToNat ds 0 : Int))

/-- JS truthiness of a number that may be `NaN` (`none`): `0` and `NaN`
are falsy. -/
def numTruthy : Option Int → Bool
  | none => false
  | some n => n ≠ 0

/-- JS `a || b` on possibly-NaN numbers. -/
def jsOrNum (a b : Option Int) : Option Int := if numTruthy a then a else b

/-! ## Resource records (src/models/index.ts) -/

structure ImgStyle where
  border : String := ""
  margin : String := ""
  alignment : String := ""
  deriving Repr, DecidableEq

structure ImageResource where
  src : String
  alt : String
  width : Int
  height : Int
  dataUrl : Option String := none
  style : ImgStyle := {}
  deriving Repr, DecidableEq

structure ListStyle where
  type : String := ""
  start : String := ""
  className : String := ""
  deriving Repr, DecidableEq

structure ListResource where
  items : List String
  ordered : Bool
  style : ListStyle := {}
  deriving Repr, DecidableEq

structure LinkResource where
  text : String
  href : String
  deriving Repr, DecidableEq

/-- `TextResource['format']`; every field is optional, `none` modelling an
absent property. -/
structure TextFormat where
  bold : Option Bool := none
  italic : Option Bool := none
  underline : Option Bool := none
  strikethrough : Option Bool := none
  superscript : Option Bool := none
  subscript : Option Bool := none
  color : Option String := none
  backgroundColor : Option String := none
  fontSize : Option String := none
  fontFamily : Option String := none
  headingLevel : Option Nat := none
  alignment : Option String := none
  hasNestedFormatting : Option Bool := none
  deriving Repr, DecidableEq

structure TextResource where
  content : String
  format : TextFormat
  deriving Repr, DecidableEq

/-! ## HTMLParser.extractImages (HTMLParser.ts 375-418)

`extractImages` runs on documents produced by `DOMParser.parseFromString`;
their images are never loaded and carry no author styles, but the code still
consults `naturalWidth`/`naturalHeight` and `getComputedStyle`, so both are
kept as an explicit environment indexed by the image's position among the
document's `img` elements.  Computed `width`/`height` are carried as their
`parseInt` results. -/

structure ImgEnv where
  naturalWidth : Nat → Nat
  naturalHeight : Nat → Nat
  computedWidth : Nat → Option Int
  computedHeight : Nat → Option Int
  computedBorder : Nat → String
  computedMargin : Nat → String

/-- The environment of a freshly parsed, unstyled document: images are not
loaded (natural size 0) and computed dimensions do not parse. -/
def parsedDocImgEnv : ImgEnv :=
  ⟨fun _ => 0, fun _ => 0, fun _ => none, fun _ => none, fun _ => "", fun _ => ""⟩

def extractImages (env : ImgEnv) (cs : List Dom) : List ImageResource :=
  ((collectElems ["img"] cs).enum).filterMap fun (k, node) =>
    match node with
    | .elem _ attrs _ =>
      let src := (getAttr attrs "src").getD ""
      let alt := (getAttr attrs "alt").getD ""
      -- `parseInt(img.getAttribute('width') || '0', 10) || img.naturalWidth || 0`
      let wAttr := jsParseInt (jsOrStr ((getAttr attrs "width").getD "") "0")
      let hAttr := jsParseInt (jsOrStr ((getAttr attrs "height").getD "") "0")
      let width0 := jsOrNum (jsOrNum wAttr (some (env.naturalWidth k))) (some 0)
      let height0 := jsOrNum (jsOrNum hAttr (some (env.naturalHeight k))) (some 0)
      if src = "" then none
      else
        some
          { src := src, alt := alt
            -- `width: width || computedWidth || 300` (and 200 for height)
            width := (jsOrNum (jsOrNum width0 (env.computedWidth k)) (some 300)).getD 300
            height := (jsOrNum (jsOrNum height0 (env.computedHeight k)) (some 200)).getD 200
            dataUrl := if startsWithChars "data:".toList src.toList then some src else none
            style :=
              { border := jsOrStr ((getAttr attrs "border").getD "") (env.computedBorder k)
                margin :=
                  match getAttr attrs "hspace" with
                  | some hs => "0 " ++ hs ++ "px"
                  | none => env.computedMargin k
                alignment := jsOrStr ((getAttr attrs "align").getD "") "center" } }
    | .text _ => none

/-! ## HTMLParser.extractTables (HTMLParser.ts 426-511) -/

def cellText (c : Dom) : String := jsTrim (textContent c)

/-- `table.querySelectorAll('tbody tr')` / `'thead tr'`: all `tr` elements
with a `tbody` (resp. `thead`) ancestor inside the table. -/
def rowsUnder (wrapper : String) (tcs : List Dom) : List Dom :=
  (collectElems [wrapper] tcs).flatMap fun n =>
    match n with
    | .elem _ _ wcs => collectElems ["tr"] wcs
    | .text _ => []

def extractTables (cs : List Dom) : List TableResource :=
  (collectElems ["table"] cs).filterMap fun t =>
    match t with
    | .elem _ attrs tcs =>
      let headerRow := (rowsUnder "thead" tcs).head? <|> (collectElems ["tr"] tcs).head?
      let headers :=
        match headerRow with
        | some (.elem _ _ hcs) => (collectElems ["th", "td"] hcs).map cellText
        | _ => []
      let bodyRows := rowsUnder "tbody" tcs
      let allRows := collectElems ["tr"] tcs
      let rowsToProcess :=
        if !bodyRows.isEmpty then bodyRows
        else if headers.length > 0 then allRows.drop 1 else allRows
      let rows := rowsToProcess.filterMap fun r =>
        match r with
        | .elem _ _ rcs =>
          let cells := (collectElems ["td"] rcs).map cellText
          if cells ≠ [] then some cells else none
        | .text _ => none
      some
        { headers := headers, rows := rows
          style :=
            -- computed style may be unavailable in the parsing environment
            -- (the source catches the failure); default strings then apply.
            { width := jsOrStr ((getAttr attrs "width").getD "") "100%"
              border := (getAttr attrs "border").isSome
              cellPadding := jsOrStr ((getAttr attrs "cellpadding").getD "") "5"
              cellSpacing := jsOrStr ((getAttr attrs "cellspacing").getD "") "0"
              backgroundColor := "transparent"
              textAlign := "left" } }
    | .text _ => none

/-! ## HTMLParser.extractLists (HTMLParser.ts 597-652) -/

def extractLists (cs : List Dom) : List ListResource :=
  (collectElems ["ul", "ol"] cs).filterMap fun l =>
    match l with
    | .elem tag attrs lcs =>
      let items := (collectElems ["li"] lcs).map fun li =>
        match li with
        | .elem _ _ lics => serializeList lics
        | .text s => s
      if items = [] then none
      else
        some
          { items := items
            ordered := tag = "ol"
            style :=
              { type := jsOrStr ((getAttr attrs "type").getD "")
                  (if tag = "ol" then "1" else "disc")
                start := jsOrStr ((getAttr attrs "start").getD "") "1"
                className := "" } }
    | .text _ => none

/-! ## HTMLParser.extractFormattedText (HTMLParser.ts 519-589)

The parser works on detached documents produced by `DOMParser` with no
stylesheet applied, so every `getComputedStyle` lookup yields the browser
defaults: `fontWeight "400"`, `fontStyle "normal"`, `textDecoration "none"`,
`color "rgb(0, 0, 0)"`, `backgroundColor "rgba(0, 0, 0, 0)"` (falsy for the
`!==` guard, so the field stays unset), constant font size and family.
The style-derived disjuncts of the boolean flags are therefore `false` and
the tag/ancestor disjuncts decide them. -/

def defaultComputedColor : String := "rgb(0, 0, 0)"

def defaultComputedFontSize : String := "16px"

def defaultComputedFontFamily : String := "Times New Roman"

/-- `element.closest(sel)` over tag-name selectors: the element itself or
any ancestor matches. -/
def closestHit (tags : List String) (selfAndAnc : List String) : Bool :=
  selfAndAnc.any (· ∈ tags)

/-- The tag part of the `querySelectorAll` selector of
`extractFormattedText`; `div:not(:has(>*))` is handled separately. -/
def textSelectorTags : List String :=
  ["p", "h1", "h2", "h3", "h4", "h5", "h6", "span",
   "b", "strong", "i", "em", "u", "s", "strike", "sup", "sub"]

def isElemNode : Dom → Bool
  | .elem _ _ _ => true
  | .text _ => false

def matchesTextSelector (t : String) (cs : List Dom) : Bool :=
  t ∈ textSelectorTags || (t = "div" && !(cs.any isElemNode))

def headingLevelOf (t : String) : Option Nat :=
  if t = "h1" then some 1
  else if t = "h2" then some 2
  else if t = "h3" then some 3
  else if t = "h4" then some 4
  else if t = "h5" then some 5
  else if t = "h6" then some 6
  else none

/-- The nested-formatting probe of `extractFormattedText` (line 580):
`element.querySelector('b, strong, i, em, u, s, strike, sup, sub')` —
note the absence of `del`. -/
def parserNestedFmtTags : List String :=
  ["b", "strong", "i", "em", "u", "s", "strike", "sup", "sub"]

/-- Build the `TextResource` for one matched element; `anc` are the tags of
its proper ancestors (nearest first). -/
def mkFTResource (anc : List String) (t : String) (attrs : List (String × String))
    (cs : List Dom) : TextResource :=
  let textAlign := jsOrStr ((getAttr attrs "align").getD "") "left"
  let alignment :=
    if containsChars "center".toList textAlign.toList then "center"
    else if containsChars "right".toList textAlign.toList then "right"
    else if containsChars "justify".toList textAlign.toList then "justify"
    else "left"
  { content := serializeList cs
    format :=
      { bold := some (t = "b" || t = "strong" || closestHit ["b", "strong"] (t :: anc))
        italic := some (t = "i" || t = "em" || closestHit ["i", "em"] (t :: anc))
        underline := some (t = "u" || closestHit ["u"] (t :: anc))
        strikethrough := some (t = "s" || t = "strike" || closestHit ["s", "strike"] (t :: anc))
        superscript := some (t = "sup" || closestHit ["sup"] (t :: anc))
        subscript := some (t = "sub" || closestHit ["sub"] (t :: anc))
        color := some defaultComputedColor
        backgroundColor := none
        fontSize := some defaultComputedFontSize
        fontFamily := some defaultComputedFontFamily
        headingLevel := headingLevelOf t
        alignment := some alignment
        hasNestedFormatting :=
          if !(collectElems parserNestedFmtTags cs).isEmpty then some true else none } }

mutual

def extractFTNode (anc : List String) : Dom → List TextResource
  | .text _ => []
  | .elem t attrs cs =>
    (if matchesTextSelector t cs && jsTrim (textContentList cs) ≠ "" then
       [mkFTResource anc t attrs cs]
     else []) ++ extractFTList (t :: anc) cs

def extractFTList (anc : List String) : List Dom → List TextResource
  | [] => []
  | c :: cs => extractFTNode anc c ++ extractFTList anc cs

end

def extractFormattedText (cs : List Dom) : List TextResource := extractFTList [] cs

/-! ## HTMLParser.extractSections (HTMLParser.ts 252-336) -/

inductive SplitStrategy where
  | BY_H1 | BY_H2 | BY_CUSTOM_SELECTOR | NO_SPLIT
  deriving Repr, DecidableEq

/-- `body.querySelector(tag)` followed by the `x && x.textContent` truthy
check of `extractTitle`. -/
def firstTagText (tag : String) (cs : List Dom) : Option String :=
  (collectElems [tag] cs).head?.bind fun h =>
    let t := textContent h
    if t = "" then none else some t

/-- `HTMLParser.extractTitle`.  The final cascade step reads the `<title>`
element of the *hosting page* (`document.querySelector('title')`, not the
parsed document); it is passed in as `ambientTitle`. -/
def extractTitle (ambientTitle : Option String) (cs : List Dom) : String :=
  match firstTagText "h1" cs with
  | some t => t
  | none =>
    match firstTagText "h2" cs with
    | some t => t
    | none =>
      match firstTagText "h3" cs with
      | some t => t
      | none =>
        match ambientTitle with
        | some t => if t = "" then "Untitled" else t
        | none => "Untitled"

/-- The `nextSibling` walk of `extractSections`: collect the sibling nodes
in `rest` (the siblings from child index `j` on), stopping at the end or at
the next matched header (`currentNode !== nextHeader`, object identity
rendered as path equality). -/
def collectSiblingsFrom (parentPath : List Nat) (stop : Option (List Nat)) :
    Nat → List Dom → List Dom
  | _, [] => []
  | j, c :: rest =>
    if stop = some (parentPath ++ [j]) then []
    else c :: collectSiblingsFrom parentPath stop (j + 1) rest

/-- Start the sibling walk at `nextSibling` of the child at index `i`. -/
def collectSiblings (children : List Dom) (parentPath : List Nat)
    (stop : Option (List Nat)) (i : Nat) : List Dom :=
  collectSiblingsFrom parentPath stop i (children.drop i)

/-! ## Slide elements and geometry options

`SlideElement` is the tagged union of `src/models/index.ts`; the dynamic
`style?: Record<string, any>` override and the handler styling results are
modelled by the geometric fields the `SlideCreator` merges
(`{...positions.kind, ...handlerOptions, ...element.style}`). -/

/-- A width/height entry of a position record: a percentage string such as
`'90%'` or a number of inches. -/
inductive DimVal where
  | pct (n : ℚ)
  | inch (q : ℚ)
  deriving Repr, DecidableEq

structure ElemOpts where
  x : ℚ := 0
  y : ℚ := 0
  w : Option DimVal := none
  h : Option DimVal := none
  deriving Repr, DecidableEq

/-- An element-level `style` override: present fields replace the looked-up
position fields (object spread). -/
structure StyleOverride where
  x : Option ℚ := none
  y : Option ℚ := none
  w : Option DimVal := none
  h : Option DimVal := none
  deriving Repr, DecidableEq

def mergeOpts (base : ElemOpts) (ov : StyleOverride) : ElemOpts :=
  { x := ov.x.getD base.x
    y := ov.y.getD base.y
    w := match ov.w with | some v => some v | none => base.w
    h := match ov.h with | some v => some v | none => base.h }

/-- The `content` payload of a `SlideElement`, tagged by kind. -/
inductive MElement where
  | text (r : TextResource)
  | image (r : ImageResource)
  | table (r : TableResource)
  | listEl (r : ListResource)
  | link (r : LinkResource)
  deriving Repr, DecidableEq

inductive ResKind where
  | text | image | table | list | link
  deriving Repr, DecidableEq

def MElement.kind : MElement → ResKind
  | .text _ => .text
  | .image _ => .image
  | .table _ => .table
  | .listEl _ => .list
  | .link _ => .link

structure SlideElement where
  content : MElement
  style : StyleOverride := {}
  deriving Repr, DecidableEq

/-- A `Section`.  The source stores the section content as a string
(`outerHTML` of the header plus `outerHTML`/`textContent` of the collected
siblings) and re-parses it with `DOMParser`; serialization followed by
parsing is the identity on these trees, so the model carries the nodes. -/
structure MSection where
  title : String
  content : List Dom
  elements : List SlideElement := []

/-- Build the section for the matched header `x = (idx, path, header)`:
title from the header's text (or `"Section {n}"`), content the header node
followed by its siblings up to the next matched header. -/
def mkSectionFromHit (cs : List Dom) (hits : List (List Nat × Dom))
    (x : Nat × List Nat × Dom) : MSection :=
  match x with
  | (idx, p, header) =>
    { title :=
        if textContent header = "" then "Section " ++ toString (idx + 1)
        else textContent header
      content :=
        header ::
          collectSiblings (childrenAt cs p.dropLast) p.dropLast
            ((hits.get? (idx + 1)).map (·.1)) (p.getLastD 0 + 1)
      elements := [] }

/-- The selector-driven part of `extractSections`: one section per matched
header, or one fallback section when nothing matches. -/
def sectionsBySelector (ambientTitle : Option String) (cs : List Dom)
    (selector : String) : List MSection :=
  if (collectWithPaths [selector] [] 0 cs).isEmpty then
    [{ title := extractTitle ambientTitle cs, content := cs, elements := [] }]
  else
    (collectWithPaths [selector] [] 0 cs).enum.map
      (mkSectionFromHit cs (collectWithPaths [selector] [] 0 cs))

def extractSections (ambientTitle : Option String) (cs : List Dom)
    (strategy : SplitStrategy) (customSelector : Option String) : List MSection :=
  -- `!body || body.innerHTML.trim() === ''`
  if jsTrim (serializeList cs) = "" then
    [{ title := "Untitled", content := [], elements := [] }]
  else
    match strategy with
    | .NO_SPLIT =>
      [{ title := extractTitle ambientTitle cs, content := cs, elements := [] }]
    | .BY_H1 => sectionsBySelector ambientTitle cs "h1"
    | .BY_H2 => sectionsBySelector ambientTitle cs "h2"
    | .BY_CUSTOM_SELECTOR =>
      -- custom selector modelled as a tag, `h1` when absent
      sectionsBySelector ambientTitle cs (customSelector.getD "h1")

/-! ## HTMLParser.parseHTML (HTMLParser.ts 28-110)

Validation and `DOMParser` error handling are outside the verified claims;
the model covers the resource extraction and section population of a
successfully parsed document (given as the body's child forest). -/

structure MResources where
  images : List ImageResource
  tables : List TableResource
  lists : List ListResource
  links : List LinkResource
  texts : List TextResource

structure MHTMLContent where
  sections : List MSection
  resources : MResources

/-- The per-section element assembly of `parseHTML` (lines 78-83): images,
then tables, then lists, then texts. -/
def sectionElements (env : ImgEnv) (content : List Dom) : List SlideElement :=
  (extractImages env content).map (fun r => { content := .image r })
    ++ (extractTables content).map (fun r => { content := .table r })
    ++ (extractLists content).map (fun r => { content := .listEl r })
    ++ (extractFormattedText content).map (fun r => { content := .text r })

def parseHTML (env : ImgEnv) (ambientTitle : Option String) (cs : List Dom)
    (strategy : SplitStrategy) (customSelector : Option String) : MHTMLContent :=
  { sections :=
      (extractSections ambientTitle cs strategy customSelector).map fun s =>
        { s with elements := sectionElements env s.content }
    resources :=
      { images := extractImages env cs
        tables := extractTables cs
        lists := extractLists cs
        links := []   -- `parseHTML` line 61: links not populated
        texts := extractFormattedText cs } }

/-! ## TextElementGenerator (src/services/conversion/TextElementGenerator.ts)

`parseFormatting` and `generateComplexTextElements` parse an HTML fragment
into a temporary `<div>`; the fragment is given as the div's child forest.
The temporary div never carries inline styles, so the `tempElement.style.X`
probes are always empty and the `querySelector('[style*=...]')` branches
decide the style fields. -/

def isWordChar (c : Char) : Bool := isAsciiLetter c || isDigit c || c = '_'

/-- Remainder after the first occurrence of `pat` (JS `String.match` scans
left to right; backtracking to later occurrences after a failed group is
not modelled — no claim exercises it). -/
def findAfterSub (pat : List Char) : List Char → Option (List Char)
  | [] => if pat.isEmpty then some [] else none
  | c :: cs =>
    if startsWithChars pat (c :: cs) then some ((c :: cs).drop pat.length)
    else findAfterSub pat cs

/-- `/prop:\s*(\w+)/` applied to a style string. -/
def regexStyleWord (prop : String) (style : String) : Option String :=
  (findAfterSub prop.toList style.toList).bind fun rest =>
    let w := (rest.dropWhile isJsWs).takeWhile isWordChar
    if w.isEmpty then none else some (String.mk w)

/-- `/prop:\s*([^;]+)/` applied to a style string, with the source's
`.trim()` on the captured group. -/
def regexStyleValue (prop : String) (style : String) : Option String :=
  (findAfterSub prop.toList style.toList).bind fun rest =>
    let v := (rest.dropWhile isJsWs).takeWhile (· ≠ ';')
    if v.isEmpty then none else some (jsTrim (String.mk v))

mutual

/-- All element nodes below a node, the node included, in document
(pre-)order. -/
def allElemsNode : Dom → List Dom
  | .text _ => []
  | .elem t a cs => Dom.elem t a cs :: allElems cs

/-- All element nodes of a forest in document (pre-)order. -/
def allElems : List Dom → List Dom
  | [] => []
  | c :: cs => allElemsNode c ++ allElems cs

end

/-- `querySelector('[style*="sub"]')`: the style attribute of the first
element whose inline style contains the substring. -/
def firstStyleAttrContaining (sub : String) (cs : List Dom) : Option String :=
  ((allElems cs).filterMap fun e =>
    match e with
    | .elem _ a _ =>
      match getAttr a "style" with
      | some st => if containsChars sub.toList st.toList then some st else none
      | none => none
    | .text _ => none).head?

/-- The selector of `parseFormatting` line 216, including `del`. -/
def genNestedFmtTags : List String :=
  ["strong", "b", "em", "i", "u", "s", "strike", "del", "sup", "sub"]

/-- `TextElementGenerator.parseFormatting` (lines 87-224). -/
def parseFormatting (fragment : List Dom) : TextFormat :=
  let innerHtml := (serializeList fragment).toList
  let hasTag := fun (tags : List String) (lits : List String) =>
    !(collectElems tags fragment).isEmpty
      || lits.any (fun lit => containsChars lit.toList innerHtml)
  { headingLevel :=
      (collectElems ["h1", "h2", "h3", "h4", "h5", "h6"] fragment).head?.bind fun h =>
        match h with
        | .elem t _ _ => headingLevelOf t
        | .text _ => none
    bold := if hasTag ["strong", "b"] ["<strong>", "<b>"] then some true else none
    italic := if hasTag ["em", "i"] ["<em>", "<i>"] then some true else none
    underline := if hasTag ["u"] ["<u>"] then some true else none
    strikethrough :=
      if hasTag ["s", "strike", "del"] ["<s>", "<strike>", "<del>"] then some true else none
    superscript := if hasTag ["sup"] ["<sup>"] then some true else none
    subscript := if hasTag ["sub"] ["<sub>"] then some true else none
    alignment :=
      (firstStyleAttrContaining "text-align" fragment).bind (regexStyleWord "text-align:")
    fontFamily :=
      (firstStyleAttrContaining "font-family" fragment).bind (regexStyleValue "font-family:")
    fontSize :=
      (firstStyleAttrContaining "font-size" fragment).bind (regexStyleValue "font-size:")
    color :=
      (firstStyleAttrContaining "color:" fragment).bind (regexStyleValue "color:")
    backgroundColor :=
      (firstStyleAttrContaining "background-color" fragment).bind
        (regexStyleValue "background-color:")
    hasNestedFormatting := some (decide (1 < (collectElems genNestedFmtTags fragment).length)) }

/-- `TextElementGenerator.getNodeFormatting` (lines 330-384). -/
def getNodeFormatting (t : String) (attrs : List (String × String)) : TextFormat :=
  let style := getAttr attrs "style"
  { headingLevel := headingLevelOf t
    bold := some (t = "strong" || t = "b")
    italic := some (t = "em" || t = "i")
    underline := some (t = "u")
    strikethrough := some (t = "s" || t = "strike" || t = "del")
    superscript := some (t = "sup")
    subscript := some (t = "sub")
    alignment := style.bind (regexStyleWord "text-align:")
    fontFamily := style.bind (regexStyleValue "font-family:")
    fontSize := style.bind (regexStyleValue "font-size:")
    color := style.bind (regexStyleValue "color:")
    backgroundColor := style.bind (regexStyleValue "background-color:") }

mutual

/-- `TextElementGenerator.processNodeForTextElements` (lines 279-322);
`parent` carries the tag and attributes of the parent element. -/
def processNodeForTextElements (parent : Option (String × List (String × String))) :
    Dom → List TextResource
  | .text s =>
    if jsTrim s = "" then []
    else
      match parent with
      | some (pt, pa) => [{ content := s, format := getNodeFormatting pt pa }]
      | none => [{ content := s, format := {} }]
  | .elem t a cs =>
    if jsTrim (textContentList cs) = "" then []
    else
      match cs with
      | [.text s] => [{ content := s, format := getNodeFormatting t a }]
      | _ => processChildNodes (some (t, a)) cs

def processChildNodes (parent : Option (String × List (String × String))) :
    List Dom → List TextResource
  | [] => []
  | c :: cs => processNodeForTextElements parent c ++ processChildNodes parent cs

end

/-- `TextElementGenerator.generateComplexTextElements` (lines 253-271). -/
def generateComplexTextElements (fragment : List Dom) : List TextResource :=
  processNodeForTextElements none (Dom.elem "div" [] fragment)

/-! Reference functions for claim C9, for comparison with
`generateComplexTextElements`. -/

mutual

/-- The fragment's text with every maximal whitespace-only subtree dropped
(what the run flattening actually concatenates). -/
def pruneText : Dom → String
  | .text s => if jsTrim s = "" then "" else s
  | .elem _ _ cs => if jsTrim (textContentList cs) = "" then "" else pruneTextList cs

def pruneTextList : List Dom → String
  | [] => ""
  | c :: cs => pruneText c ++ pruneTextList cs

end

/-- Modelled from the spec: "the fragment's plain-text content with
whitespace collapsed" — maximal whitespace runs become a single space.
The flag records whether the previous character was whitespace. -/
def collapseWsAux : Bool → List Char → List Char
  | _, [] => []
  | prevWs, c :: cs =>
    if isJsWs c then (if prevWs then [] else [' ']) ++ collapseWsAux true cs
    else c :: collapseWsAux false cs

def collapseWs (s : String) : String := String.mk (collapseWsAux false s.toList)

/-! ## ImageHandler.calculateOptimalDimensions (ImageHandler.ts 239-275)

JS numbers are modelled as rationals; `Math.round` (half toward +∞) is
`⌊x + 1/2⌋`.  An absent optional argument is `none`; `maxWidth && ...`
is the JS truthiness test (0 falsy). -/

def jsRound (q : ℚ) : ℤ := ⌊q + 1 / 2⌋

def qTruthy : Option ℚ → Bool
  | none => false
  | some q => q ≠ 0

def calculateOptimalDimensions (width height : ℚ) (maxWidth maxHeight : Option ℚ)
    (preserveAspectRatio : Bool) : ℚ × ℚ :=
  -- `if (!maxWidth && !maxHeight) return { width, height }`
  if !qTruthy maxWidth && !qTruthy maxHeight then (width, height)
  else
    -- `if (maxWidth && width > maxWidth)`
    let p1 : ℚ × ℚ :=
      match maxWidth with
      | some m =>
        if m ≠ 0 ∧ width > m then
          (m, if preserveAspectRatio then ((jsRound (m / width * height) : ℤ) : ℚ) else height)
        else (width, height)
      | none => (width, height)
    -- `if (maxHeight && newHeight > maxHeight)`; the aspect rewrite uses the
    -- original `height` and `width` (`(newHeight / height) * width`).
    match maxHeight with
    | some m =>
      if m ≠ 0 ∧ p1.2 > m then
        ((if preserveAspectRatio then ((jsRound (m / height * width) : ℤ) : ℚ) else p1.1), m)
      else p1
    | none => p1

/-! ## SlideCreator (src/services/conversion/SlideCreator.ts)

The `SlideCreator` is constructed from interface-typed handler services;
the model takes them as explicit fallible functions (`Except` models a
thrown exception).  The successive handler calls inside one `try` block
(e.g. `processTable`, `applyTableStyling`, `formatHeaders`, `formatRows`)
are modelled as a single fallible computation returning the processed
resource together with an options patch (the dynamic styling record the
source spreads over the position record).  The PptxGenJS backend is
modelled as a recorded list of calls. -/

structure ImageProcessingOptions where
  maxWidth : Option ℚ := none
  maxHeight : Option ℚ := none
  preserveAspectRatio : Bool := true
  quality : ℚ := 80

inductive SlideLayout where
  | STANDARD | WIDE | CUSTOM
  deriving Repr, DecidableEq

inductive PresentationTheme where
  | DEFAULT | PROFESSIONAL | CREATIVE | MINIMAL
  deriving Repr, DecidableEq

structure ConversionConfig where
  slideLayout : SlideLayout
  includeImages : Bool
  imageOptions : Option ImageProcessingOptions := none
  theme : PresentationTheme := .DEFAULT
  splitSections : SplitStrategy := .BY_H1
  customSectionSelector : Option String := none
  preserveLinks : Bool

/-- An options patch: the handler's styling record spread over the position
record. -/
def OptsPatch := ElemOpts → ElemOpts

structure Handlers where
  processImage : ImageResource → Option ImageProcessingOptions → Except String ImageResource
  processTable : TableResource → Except String (TableResource × OptsPatch)
  processList : ListResource → Except String (ListResource × OptsPatch)
  processLink : LinkResource → Except String (LinkResource × OptsPatch)

inductive BackendCall where
  | addSlide (title : String) (layout : SlideLayout)
  | addText (r : TextResource) (opts : ElemOpts)
  | addImage (r : ImageResource) (opts : ElemOpts)
  | addTable (r : TableResource) (opts : ElemOpts)
  | addList (r : ListResource) (opts : ElemOpts)
  | addLink (r : LinkResource) (opts : ElemOpts)

structure LayoutPositions where
  title : ElemOpts
  text : ElemOpts
  image : ElemOpts
  table : ElemOpts
  listPos : ElemOpts
  link : ElemOpts

/-- `SlideCreator.getLayoutPositions` (lines 183-224). -/
def getLayoutPositions (layout : SlideLayout) : LayoutPositions :=
  let defaults : LayoutPositions :=
    { title := { x := 1/2, y := 1/2, w := some (.pct 90), h := some (.inch 1) }
      text := { x := 1/2, y := 3/2, w := some (.pct 90) }
      image := { x := 1, y := 2, w := some (.pct 80) }
      table := { x := 1/2, y := 2, w := some (.pct 90) }
      listPos := { x := 1/2, y := 2, w := some (.pct 90) }
      link := { x := 1/2, y := 2, w := some (.pct 90) } }
  match layout with
  | .STANDARD => { defaults with image := { x := 1, y := 2, w := some (.pct 80) } }
  | .WIDE => { defaults with image := { x := 1, y := 2, w := some (.pct 85) } }
  | .CUSTOM =>
    { defaults with
        title := { x := 1/2, y := 1/2, w := some (.pct 95), h := some (.inch 1) }
        text := { x := 1/2, y := 3/2, w := some (.pct 95) }
        image := { x := 1/2, y := 2, w := some (.pct 90) }
        table := { x := 1/2, y := 2, w := some (.pct 95) }
        listPos := { x := 1/2, y := 2, w := some (.pct 95) }
        link := { x := 1/2, y := 2, w := some (.pct 95) } }

/-- `SlideCreator.addElementToSlide` (lines 234-418): returns the backend
calls made for the element and the `console.warn` messages.  Handler
failures are caught per element; the surrounding `try` rethrows as
`SlideCreationError` (`Except.error`), which no branch reaches. -/
def addElementToSlide (H : Handlers) (config : ConversionConfig)
    (positions : LayoutPositions) (el : SlideElement) :
    Except String (List BackendCall × List String) :=
  match el.content with
  | .text r =>
    .ok ([.addText r (mergeOpts positions.text el.style)], [])
  | .image r =>
    if config.includeImages then
      let imageOptions := mergeOpts positions.image el.style
      match H.processImage r config.imageOptions with
      | .ok processed =>
        -- `imageOptions.w = processedImage.width / 100` (pixels to inches)
        .ok ([.addImage processed
               { imageOptions with
                   w := some (.inch (processed.width / 100))
                   h := some (.inch (processed.height / 100)) }], [])
      | .error e =>
        .ok ([.addImage r imageOptions], ["Failed to process image: " ++ e])
    else .ok ([], [])
  | .table r =>
    (match H.processTable r with
     | .ok (processed, patch) =>
       .ok ([.addTable processed (mergeOpts (patch positions.table) el.style)], [])
     | .error e =>
       .ok ([.addTable r (mergeOpts positions.table el.style)],
            ["Failed to process table: " ++ e]))
  | .listEl r =>
    (match H.processList r with
     | .ok (processed, patch) =>
       .ok ([.addList processed (mergeOpts (patch positions.listPos) el.style)], [])
     | .error e =>
       .ok ([.addList r (mergeOpts positions.listPos el.style)],
            ["Failed to process list: " ++ e]))
  | .link r =>
    if config.preserveLinks then
      match H.processLink r with
      | .ok (processed, patch) =>
        .ok ([.addLink processed (mergeOpts (patch positions.link) el.style)], [])
      | .error e =>
        .ok ([.addLink r (mergeOpts positions.link el.style)],
             ["Failed to process link: " ++ e])
    else .ok ([], [])

/-- Sequential effectful map (the source's `for (const x of xs) await f(x)`
loops): stops at the first error. -/
def exceptMapM {α β : Type} (f : α → Except String β) : List α → Except String (List β)
  | [] => .ok []
  | x :: xs => do
    let y ← f x
    let ys ← exceptMapM f xs
    .ok (y :: ys)

/-- `SlideCreator.createSlideFromSection` (lines 156-175): resolve the
layout positions for `config.slideLayout` and process each element in
order. -/
def createSlideFromSection (H : Handlers) (config : ConversionConfig)
    (s : MSection) : Except String (List BackendCall × List String) := do
  let rs ← exceptMapM (addElementToSlide H config (getLayoutPositions config.slideLayout))
    s.elements
  .ok (BackendCall.addSlide s.title config.slideLayout :: (rs.map (·.1)).flatten,
       (rs.map (·.2)).flatten)

/-- `SlideCreator.extractElementsFromResources` (lines 92-146): texts,
images, tables, lists, links — in that fixed order. -/
def extractElementsFromResources (content : MHTMLContent) : List SlideElement :=
  (content.resources.texts.map fun r => { content := MElement.text r })
    ++ (content.resources.images.map fun r => { content := MElement.image r })
    ++ (content.resources.tables.map fun r => { content := MElement.table r })
    ++ (content.resources.lists.map fun r => { content := MElement.listEl r })
    ++ (content.resources.links.map fun r => { content := MElement.link r })

/-- `SlideCreator.createSlides` (lines 55-84).  Backend initialization and
presentation creation cannot fail in the model (they are external
collaborators); the recorded calls and warnings are returned. -/
def createSlides (H : Handlers) (config : ConversionConfig)
    (content : MHTMLContent) : Except String (List BackendCall × List String) :=
  if content.sections.isEmpty then
    createSlideFromSection H config
      { title := "Untitled", content := [], elements := extractElementsFromResources content }
  else do
    let rs ← exceptMapM (createSlideFromSection H config) content.sections
    .ok ((rs.map (·.1)).flatten, (rs.map (·.2)).flatten)

/-! ## Auxiliary definitions for the claim statements -/

/-- The C4 claim amended no further than the counterexample forces: the
"no scheme" tests of cases 4 and 5 are the code's absence of a
`letters://` prefix, so an http(s)-scheme URL without `//` is prefixed
with `https://` as well. -/
def specAmendedNormalizeUrlChars (l : List Char) : List Char :=
  if l = [] then ['#']
  else if startsWithChars ['#'] l then l
  else if hasSchemeColon l && !isHttpColonCI l then l
  else if !hasSchemeSlashes l && startsWithChars ['/'] l then l
  else if !hasSchemeSlashes l then httpsSlashesChars ++ l
  else if startsWithChars httpSlashesChars l then httpsSlashesChars ++ l.drop 7
  else l

def specAmendedNormalizeUrl (s : String) : String :=
  String.mk (specAmendedNormalizeUrlChars s.toList)

/-- Concatenation of the `content` fields of a run list (claim C9). -/
def contentsConcat (rs : List TextResource) : String :=
  rs.foldr (fun r acc => r.content ++ acc) ""

mutual

/-- Modelled from the spec: the kinds of extractable elements below a node
in document (pre-)order — the order claim C3 asserts for section
elements. -/
def specDocOrderKindsNode : Dom → List ResKind
  | .text _ => []
  | .elem t a ccs =>
    (if t = "img" then (if (getAttr a "src").getD "" = "" then [] else [ResKind.image])
     else if t = "table" then [ResKind.table]
     else if t = "ul" ∨ t = "ol" then [ResKind.list]
     else if matchesTextSelector t ccs && jsTrim (textContentList ccs) ≠ "" then
       [ResKind.text]
     else []) ++ specDocOrderKinds ccs

def specDocOrderKinds : List Dom → List ResKind
  | [] => []
  | c :: cs => specDocOrderKindsNode c ++ specDocOrderKinds cs

end

/-- `addSlide` call recognizer, for stating the backend slide order. -/
def BackendCall.slideTitleOf : BackendCall → Option String
  | .addSlide t _ => some t
  | _ => none

/-- The named attribute of a node, as `extractImages` parses it, does not
parse to a negative number (hypothesis of the amended C7). -/
def attrNonnegCheck (attrs : List (String × String)) (name : String) : Bool :=
  match jsParseInt (jsOrStr ((getAttr attrs name).getD "") "0") with
  | some v => 0 ≤ v
  | none => true

/-- Every `img` element of the forest passes `attrNonnegCheck` for its
width and height attributes. -/
def imgAttrsNonnegCheck (cs : List Dom) : Bool :=
  (collectElems ["img"] cs).all fun n =>
    match n with
    | .elem _ a _ => attrNonnegCheck a "width" && attrNonnegCheck a "height"
    | .text _ => true

/-! ### Concrete documents and handler instances used by the scenarios -/

/-- Scenario A: `<h1>Intro</h1><p>Hello</p><h1>Details</h1><p>World</p>`. -/
def scenarioADoc : List Dom :=
  [.elem "h1" [] [.text "Intro"], .elem "p" [] [.text "Hello"],
   .elem "h1" [] [.text "Details"], .elem "p" [] [.text "World"]]

/-- Scenario B: `<table><tr><th>A</th></tr><tr><td>1</td><td>2</td></tr></table>`. -/
def scenarioBTable : Dom :=
  .elem "table" []
    [.elem "tr" [] [.elem "th" [] [.text "A"]],
     .elem "tr" [] [.elem "td" [] [.text "1"], .elem "td" [] [.text "2"]]]

/-- Scenario B with the `tbody` wrapper a browser parser inserts around
bare `tr` rows. -/
def scenarioBTableTbody : Dom :=
  .elem "table" []
    [.elem "tbody" []
      [.elem "tr" [] [.elem "th" [] [.text "A"]],
       .elem "tr" [] [.elem "td" [] [.text "1"], .elem "td" [] [.text "2"]]]]

/-- A paragraph followed by an image: document order is text before image. -/
def orderCexDoc : List Dom :=
  [.elem "p" [] [.text "Hello"], .elem "img" [("src", "x.png")] []]

/-- `<p><b>x</b></p>`: exactly one inline-formatting descendant. -/
def nestedFmtCexDoc : List Dom :=
  [.elem "p" [] [.elem "b" [] [.text "x"]]]

/-- `<b>a</b> <i>b</i>`: the inter-element whitespace text node is dropped
by run flattening, not collapsed to one space. -/
def runFlattenCexFragment : List Dom :=
  [.elem "b" [] [.text "a"], .text " ", .elem "i" [] [.text "b"]]

/-- `<img src="x" width="-5" height="10">`. -/
def negWidthImg : Dom := .elem "img" [("src", "x"), ("width", "-5"), ("height", "10")] []

def identityPatch : OptsPatch := id

/-- Handlers whose image processing throws (a failing decode) and whose
other handlers succeed unchanged. -/
def imageFailHandlers : Handlers :=
  { processImage := fun _ _ => .error "decode failed"
    processTable := fun t => .ok (t, identityPatch)
    processList := fun l => .ok (l, identityPatch)
    processLink := fun l => .ok (l, identityPatch) }

def sampleConfig : ConversionConfig :=
  { slideLayout := .STANDARD, includeImages := true, preserveLinks := true }

def sampleImage : ImageResource :=
  { src := "a.png", alt := "photo", width := 120, height := 80 }

def sampleTable : TableResource := { headers := ["A"], rows := [["1", "2"]] }

/-! # Theorems -/

/-! ## Supporting lemmas -/

lemma le_foldl_maxcols (rows : List (List String)) :
    ∀ a : Nat, a ≤ rows.foldl (fun m row => max m row.length) a := by
  induction rows with
  | nil => intro a; simp
  | cons r rs ih =>
    intro a
    exact le_trans (Nat.le_max_left a r.length) (ih (max a r.length))

lemma mem_le_foldl_maxcols (rows : List (List String)) :
    ∀ (a : Nat) (row : List String), row ∈ rows →
      row.length ≤ rows.foldl (fun m row => max m row.length) a := by
  induction rows with
  | nil => intro a row h; cases h
  | cons r rs ih =>
    intro a row h
    rcases List.mem_cons.mp h with h | h
    · subst h
      exact le_trans (Nat.le_max_right a row.length) (le_foldl_maxcols rs _)
    · exact ih _ row h

lemma padTo_length_of_le {n : Nat} {xs : List String} (h : xs.length ≤ n) :
    (padTo n xs).length = n := by
  simp [padTo]; omega

lemma trimChars_eq_nil_iff (l : List Char) : trimChars l = [] ↔ ∀ c ∈ l, isJsWs c := by
  unfold trimChars
  rw [List.reverse_eq_nil_iff, List.dropWhile_eq_nil_iff]
  constructor
  · intro h c hc
    rcases (List.takeWhile_append_dropWhile (p := isJsWs) (l := l)) ▸ hc |> List.mem_append.mp
      with h1 | h1
    · exact List.mem_takeWhile_imp h1
    · exact h (c) (by simpa using h1)
  · intro h c hc
    exact h c (List.dropWhile_sublist _ |>.mem (by simpa using hc))

lemma jsTrim_eq_empty_iff (s : String) : jsTrim s = "" ↔ ∀ c ∈ s.toList, isJsWs c := by
  unfold jsTrim
  rw [String.ext_iff]
  exact trimChars_eq_nil_iff _


/-- Strings of the form `https://…` are fixpoints of `normalizeUrlChars`:
all branch conditions are decided by the concrete prefix. -/
lemma normalizeUrlChars_https_fix (t : List Char) :
    normalizeUrlChars (httpsSlashesChars ++ t) = httpsSlashesChars ++ t := rfl

lemma normalizeUrlChars_idem (l : List Char) :
    normalizeUrlChars (normalizeUrlChars l) = normalizeUrlChars l := by
  by_cases h0 : l = []
  · subst h0; rfl
  · by_cases h1 : startsWithChars ['#'] l
    · have e : normalizeUrlChars l = l := by simp [normalizeUrlChars, h0, h1]
      rw [e]; exact e
    · by_cases h2 : (hasSchemeColon l && !isHttpColonCI l) = true
      · have e : normalizeUrlChars l = l := by simp [normalizeUrlChars, h0, h1, h2]
        rw [e]; exact e
      · by_cases h3 : hasSchemeSlashes l = true
        · by_cases h4 : startsWithChars httpSlashesChars l
          · have e : normalizeUrlChars l = httpsSlashesChars ++ l.drop 7 := by
              simp [normalizeUrlChars, h0, h1, h2, h3, h4]
            rw [e, normalizeUrlChars_https_fix]
          · have e : normalizeUrlChars l = l := by
              simp [normalizeUrlChars, h0, h1, h2, h3, h4]
            rw [e]; exact e
        · by_cases h5 : startsWithChars ['/'] l
          · have e : normalizeUrlChars l = l := by
              simp [normalizeUrlChars, h0, h1, h2, h3, h5]
            rw [e]; exact e
          · have e : normalizeUrlChars l = httpsSlashesChars ++ l := by
              simp [normalizeUrlChars, h0, h1, h2, h3, h5]
            rw [e, normalizeUrlChars_https_fix]

lemma addElementToSlide_isOk (H : Handlers) (config : ConversionConfig)
    (positions : LayoutPositions) (el : SlideElement) :
    (addElementToSlide H config positions el).isOk = true := by
  rcases el with ⟨c, st⟩
  cases c <;> simp only [addElementToSlide]
  · rfl
  · split
    · rcases h : H.processImage _ config.imageOptions with e | p <;> simp only [h] <;> rfl
    · rfl
  · rcases h : H.processTable _ with e | ⟨p, patch⟩ <;> simp only [h] <;> rfl
  · rcases h : H.processList _ with e | ⟨p, patch⟩ <;> simp only [h] <;> rfl
  · split
    · rcases h : H.processLink _ with e | ⟨p, patch⟩ <;> simp only [h] <;> rfl
    · rfl

lemma exceptMapM_isOk {α β : Type} (f : α → Except String β) (xs : List α)
    (h : ∀ x ∈ xs, (f x).isOk = true) : (exceptMapM f xs).isOk = true := by
  induction xs with
  | nil => rfl
  | cons x xs ih =>
    simp only [exceptMapM]
    rcases hx : f x with e | v
    · have := h x (by simp)
      rw [hx] at this; exact absurd this (by simp [Except.isOk, Except.toBool])
    · have hok := ih (fun y hy => h y (by simp [hy]))
      rcases hxs : exceptMapM f xs with e' | vs
      · rw [hxs] at hok; exact absurd hok (by simp [Except.isOk, Except.toBool])
      · rfl

lemma createSlideFromSection_isOk (H : Handlers) (config : ConversionConfig)
    (s : MSection) : (createSlideFromSection H config s).isOk = true := by
  unfold createSlideFromSection
  have h := exceptMapM_isOk (addElementToSlide H config (getLayoutPositions config.slideLayout))
    s.elements (fun x _ => addElementToSlide_isOk H config _ x)
  rcases hm : exceptMapM (addElementToSlide H config (getLayoutPositions config.slideLayout))
      s.elements with e | rs
  · rw [hm] at h; exact absurd h (by simp [Except.isOk, Except.toBool])
  · rfl

lemma createSlides_isOk (H : Handlers) (config : ConversionConfig)
    (content : MHTMLContent) : (createSlides H config content).isOk = true := by
  unfold createSlides
  split
  · exact createSlideFromSection_isOk H config _
  · have h := exceptMapM_isOk (createSlideFromSection H config) content.sections
      (fun s _ => createSlideFromSection_isOk H config s)
    rcases hm : exceptMapM (createSlideFromSection H config) content.sections with e | rs
    · rw [hm] at h; exact absurd h (by simp [Except.isOk, Except.toBool])
    · rfl

/-! ## Claim C1 — per-element failure is caught, logged, and falls back -/

/-- C1: in `SlideCreator.addElementToSlide`, a throwing image, table, list
or link handler is caught: a warning is logged and the element is rendered
through the backend in its unprocessed form — for an image, with the
original resource (original width/height) and the un-overwritten position
geometry; and `createSlides` always completes (`isOk`), for every handler
behaviour. -/
theorem C1_addElementToSlide_fallback :
    (∀ (H : Handlers) (config : ConversionConfig) (positions : LayoutPositions)
       (r : ImageResource) (st : StyleOverride) (e : String),
       config.includeImages = true →
       H.processImage r config.imageOptions = .error e →
       addElementToSlide H config positions ⟨.image r, st⟩ =
         .ok ([.addImage r (mergeOpts positions.image st)],
              ["Failed to process image: " ++ e])) ∧
    (∀ (H : Handlers) (config : ConversionConfig) (positions : LayoutPositions)
       (r : TableResource) (st : StyleOverride) (e : String),
       H.processTable r = .error e →
       addElementToSlide H config positions ⟨.table r, st⟩ =
         .ok ([.addTable r (mergeOpts positions.table st)],
              ["Failed to process table: " ++ e])) ∧
    (∀ (H : Handlers) (config : ConversionConfig) (positions : LayoutPositions)
       (r : ListResource) (st : StyleOverride) (e : String),
       H.processList r = .error e →
       addElementToSlide H config positions ⟨.listEl r, st⟩ =
         .ok ([.addList r (mergeOpts positions.listPos st)],
              ["Failed to process list: " ++ e])) ∧
    (∀ (H : Handlers) (config : ConversionConfig) (positions : LayoutPositions)
       (r : LinkResource) (st : StyleOverride) (e : String),
       config.preserveLinks = true →
       H.processLink r = .error e →
       addElementToSlide H config positions ⟨.link r, st⟩ =
         .ok ([.addLink r (mergeOpts positions.link st)],
              ["Failed to process link: " ++ e])) ∧
    (∀ (H : Handlers) (config : ConversionConfig) (content : MHTMLContent),
       (createSlides H config content).isOk = true) := by
  refine ⟨?_, ?_, ?_, ?_, fun H config content => createSlides_isOk H config content⟩
  · intro H config positions r st e hinc herr
    simp [addElementToSlide, hinc, herr]
  · intro H config positions r st e herr
    simp [addElementToSlide, herr]
  · intro H config positions r st e herr
    simp [addElementToSlide, herr]
  · intro H config positions r st e hpl herr
    simp [addElementToSlide, hpl, herr]

/-- Witness for C1: a concrete handler whose image processing throws — the
original image is still added with the looked-up geometry, a warning is
recorded, and a whole conversion completes. -/
theorem C1_addElementToSlide_fallback_witness :
    sampleConfig.includeImages = true ∧
    imageFailHandlers.processImage sampleImage sampleConfig.imageOptions =
      .error "decode failed" ∧
    addElementToSlide imageFailHandlers sampleConfig
        (getLayoutPositions sampleConfig.slideLayout) ⟨.image sampleImage, {}⟩ =
      .ok ([.addImage sampleImage
              (mergeOpts (getLayoutPositions sampleConfig.slideLayout).image {})],
           ["Failed to process image: " ++ "decode failed"]) ∧
    (createSlides imageFailHandlers sampleConfig
        (parseHTML parsedDocImgEnv none orderCexDoc .BY_H1 none)).isOk = true :=
  ⟨rfl, rfl,
   C1_addElementToSlide_fallback.1 imageFailHandlers sampleConfig _ sampleImage {}
     "decode failed" rfl rfl,
   C1_addElementToSlide_fallback.2.2.2.2 imageFailHandlers sampleConfig _⟩

/-! ## Claim C2 — table shape invariant and Scenario B -/

/-- C2: every table returned by `TableHandler.processTable` has its header
row and every body row of identical length `max(header length, maximum row
length)`, shorter headers and rows right-padded with empty strings; and
extracting then normalizing `<tr><th>A</th></tr><tr><td>1</td><td>2</td></tr>`
yields headers `["A", ""]` and rows `[["1", "2"]]` (for both the bare tree
and the browser's tbody-wrapped tree). -/
theorem C2_processTable_shape :
    (∀ t : TableResource,
       (processTable t).headers.length = maxColumns t ∧
       ∀ row ∈ (processTable t).rows, row.length = maxColumns t) ∧
    (extractTables [scenarioBTable]).map (fun t => (t.headers, t.rows)) =
      [(["A"], [["1", "2"]])] ∧
    ((extractTables [scenarioBTable]).map processTable).map (fun t => (t.headers, t.rows)) =
      [(["A", ""], [["1", "2"]])] ∧
    ((extractTables [scenarioBTableTbody]).map processTable).map
        (fun t => (t.headers, t.rows)) =
      [(["A", ""], [["1", "2"]])] := by
  refine ⟨fun t => ⟨?_, ?_⟩, by decide, by decide, by decide⟩
  · exact padTo_length_of_le (le_foldl_maxcols t.rows t.headers.length)
  · intro row hrow
    simp only [processTable, normalizeTableDimensions, List.mem_map] at hrow
    rcases hrow with ⟨r, hr, rfl⟩
    exact padTo_length_of_le (mem_le_foldl_maxcols t.rows _ r hr)

/-- Witness for C2 at a concrete table with a short header row. -/
theorem C2_processTable_shape_witness :
    (processTable sampleTable).headers.length = maxColumns sampleTable ∧
    (["1", "2"] : List String).length = maxColumns sampleTable :=
  ⟨(C2_processTable_shape.1 sampleTable).1,
   (C2_processTable_shape.1 sampleTable).2 ["1", "2"] (by decide)⟩

/-! ## Claim C4 — normalizeUrl case analysis and Scenario C -/

/-- C4 counterexample: `"https:foo"` carries an http(s) scheme without
`//`; the claim's cases leave it unchanged, but the code prefixes
`https://`. -/
theorem C4_normalizeUrl_counterexample :
    normalizeUrl "https:foo" = "https://https:foo" ∧
    specClaimedNormalizeUrl "https:foo" = "https:foo" ∧
    normalizeUrl "https:foo" ≠ specClaimedNormalizeUrl "https:foo" :=
  ⟨by decide, by decide, by decide⟩

/-- C4 amended: `normalizeUrl` behaves as the claim's cascade with the
"no scheme" tests of the root-relative and `https://`-prefixing cases read
as the absence of a `letters://` prefix (so `"https:foo"` is prefixed too);
the Scenario C values hold as stated. -/
theorem C4_normalizeUrl_amended :
    (∀ s : String, normalizeUrl s = specAmendedNormalizeUrl s) ∧
    normalizeUrl "example.com" = "https://example.com" ∧
    normalizeUrl "http://x.com" = "https://x.com" ∧
    normalizeUrl "" = "#" := by
  refine ⟨fun s => ?_, by decide, by decide, by decide⟩
  unfold normalizeUrl specAmendedNormalizeUrl normalizeUrlChars specAmendedNormalizeUrlChars
  split_ifs <;> simp_all

/-! ## Claim C3 — section titles and element order -/

lemma firstTagText_ne_empty {tag : String} {cs : List Dom} {t : String}
    (h : firstTagText tag cs = some t) : t ≠ "" := by
  unfold firstTagText at h
  cases hx : (collectElems [tag] cs).head? with
  | none => rw [hx] at h; simp at h
  | some n =>
    rw [hx] at h
    simp only [Option.some_bind] at h
    split_ifs at h with he
    exact (Option.some.injEq _ _ ▸ h : textContent n = t) ▸ he

lemma extractTitle_ne_empty (amb : Option String) (cs : List Dom) :
    extractTitle amb cs ≠ "" := by
  unfold extractTitle
  cases h1 : firstTagText "h1" cs with
  | some t => exact firstTagText_ne_empty h1
  | none =>
    cases h2 : firstTagText "h2" cs with
    | some t => exact firstTagText_ne_empty h2
    | none =>
      cases h3 : firstTagText "h3" cs with
      | some t => exact firstTagText_ne_empty h3
      | none =>
        cases amb with
        | none => decide
        | some t =>
          show (if t = "" then "Untitled" else t) ≠ ""
          split_ifs with he
          · decide
          · exact he

lemma append_ne_empty_of_left {s t : String} (h : s.data ≠ []) : s ++ t ≠ "" := by
  intro he
  apply h
  have := congrArg String.data he
  rw [String.data_append] at this
  exact List.append_eq_nil.mp this |>.1

lemma extractSections_title_ne_empty (amb : Option String) (cs : List Dom)
    (strat : SplitStrategy) (sel : Option String) :
    ∀ s ∈ extractSections amb cs strat sel, s.title ≠ "" := by
  intro s hs
  unfold extractSections at hs
  split_ifs at hs with hempty
  · simp at hs
    rw [hs]
    decide
  · have hbysel : ∀ selector, s ∈ sectionsBySelector amb cs selector → s.title ≠ "" := by
      intro selector hmem
      unfold sectionsBySelector at hmem
      split_ifs at hmem with hiso
      · simp at hmem
        rw [hmem]
        exact extractTitle_ne_empty amb cs
      · rw [List.mem_map] at hmem
        obtain ⟨⟨idx, p, header⟩, -, rfl⟩ := hmem
        show (if textContent header = "" then "Section " ++ toString (idx + 1)
          else textContent header) ≠ ""
        split_ifs with htc
        · exact append_ne_empty_of_left (by decide)
        · exact htc
    cases strat with
    | NO_SPLIT =>
      simp at hs
      rw [hs]
      exact extractTitle_ne_empty amb cs
    | BY_H1 => exact hbysel "h1" hs
    | BY_H2 => exact hbysel "h2" hs
    | BY_CUSTOM_SELECTOR => exact hbysel (sel.getD "h1") hs

lemma map_elem_kinds {α : Type} (xs : List α) (g : α → MElement) (k : ResKind)
    (hg : ∀ x, (g x).kind = k) :
    (xs.map (fun x => ({ content := g x } : SlideElement))).map (fun e => e.content.kind) =
      List.replicate xs.length k := by
  induction xs with
  | nil => rfl
  | cons a as ih => simp [ih, hg a, List.replicate_succ]

lemma sectionElements_kinds (env : ImgEnv) (c : List Dom) :
    (sectionElements env c).map (·.content.kind) =
      List.replicate (extractImages env c).length ResKind.image ++
      List.replicate (extractTables c).length ResKind.table ++
      List.replicate (extractLists c).length ResKind.list ++
      List.replicate (extractFormattedText c).length ResKind.text := by
  unfold sectionElements
  rw [List.map_append, List.map_append, List.map_append,
    map_elem_kinds (extractImages env c) (fun r => MElement.image r) ResKind.image
      (fun _ => rfl),
    map_elem_kinds (extractTables c) (fun r => MElement.table r) ResKind.table
      (fun _ => rfl),
    map_elem_kinds (extractLists c) (fun r => MElement.listEl r) ResKind.list
      (fun _ => rfl),
    map_elem_kinds (extractFormattedText c) (fun r => MElement.text r) ResKind.text
      (fun _ => rfl)]

lemma exceptMapM_ok_forall2 {α β : Type} (f : α → Except String β) :
    ∀ (xs : List α) (rs : List β), exceptMapM f xs = .ok rs →
      List.Forall₂ (fun x r => f x = .ok r) xs rs := by
  intro xs
  induction xs with
  | nil =>
    intro rs h
    simp only [exceptMapM] at h
    injection h with h
    subst h
    exact List.Forall₂.nil
  | cons x xs ih =>
    intro rs h
    simp only [exceptMapM] at h
    cases hx : f x with
    | error e =>
      rw [hx] at h
      simp [Bind.bind, Except.bind] at h
    | ok y =>
      rw [hx] at h
      cases hxs : exceptMapM f xs with
      | error e =>
        rw [hxs] at h
        simp [Bind.bind, Except.bind] at h
      | ok ys =>
        rw [hxs] at h
        simp only [Bind.bind, Except.bind] at h
        injection h with h
        subst h
        exact List.Forall₂.cons hx (ih ys hxs)

lemma exceptMapM_ok_mem {α β : Type} {f : α → Except String β} :
    ∀ {xs : List α} {rs : List β}, exceptMapM f xs = .ok rs →
      ∀ r ∈ rs, ∃ x ∈ xs, f x = .ok r := by
  intro xs
  induction xs with
  | nil =>
    intro rs h r hr
    simp only [exceptMapM] at h
    injection h with h
    subst h
    cases hr
  | cons x xs ih =>
    intro rs h r hr
    simp only [exceptMapM] at h
    cases hx : f x with
    | error e => rw [hx] at h; simp [Bind.bind, Except.bind] at h
    | ok y =>
      rw [hx] at h
      cases hxs : exceptMapM f xs with
      | error e => rw [hxs] at h; simp [Bind.bind, Except.bind] at h
      | ok ys =>
        rw [hxs] at h
        simp only [Bind.bind, Except.bind] at h
        injection h with h
        subst h
        rcases List.mem_cons.mp hr with rfl | hr
        · exact ⟨x, by simp, hx⟩
        · obtain ⟨x', hx', hfx'⟩ := ih hxs r hr
          exact ⟨x', by simp [hx'], hfx'⟩

lemma addElementToSlide_no_slide (H : Handlers) (cfg : ConversionConfig)
    (pos : LayoutPositions) (el : SlideElement) (v : List BackendCall × List String)
    (h : addElementToSlide H cfg pos el = .ok v) :
    v.1.filterMap BackendCall.slideTitleOf = [] := by
  rcases el with ⟨c, st⟩
  cases c <;> simp only [addElementToSlide] at h
  · injection h with h
    subst h
    rfl
  · split_ifs at h with hinc
    · cases hp : H.processImage _ cfg.imageOptions <;> rw [hp] at h <;>
        injection h with h <;> subst h <;> rfl
    · injection h with h
      subst h
      rfl
  · cases hp : H.processTable _ with
    | error e => rw [hp] at h; injection h with h; subst h; rfl
    | ok pr =>
      rcases pr with ⟨p, patch⟩
      rw [hp] at h; injection h with h; subst h; rfl
  · cases hp : H.processList _ with
    | error e => rw [hp] at h; injection h with h; subst h; rfl
    | ok pr =>
      rcases pr with ⟨p, patch⟩
      rw [hp] at h; injection h with h; subst h; rfl
  · split_ifs at h with hpl
    · cases hp : H.processLink _ with
      | error e => rw [hp] at h; injection h with h; subst h; rfl
      | ok pr =>
        rcases pr with ⟨p, patch⟩
        rw [hp] at h; injection h with h; subst h; rfl
    · injection h with h
      subst h
      rfl

lemma filterMap_flatten_nil {α β : Type} (f : α → Option β) (L : List (List α))
    (h : ∀ l ∈ L, l.filterMap f = []) : L.flatten.filterMap f = [] := by
  induction L with
  | nil => rfl
  | cons l L ih =>
    rw [List.flatten_cons, List.filterMap_append, h l (by simp),
      ih (fun l' hl' => h l' (by simp [hl']))]
    rfl

lemma createSlideFromSection_titles (H : Handlers) (cfg : ConversionConfig)
    (s : MSection) (v : List BackendCall × List String)
    (h : createSlideFromSection H cfg s = .ok v) :
    v.1.filterMap BackendCall.slideTitleOf = [s.title] := by
  unfold createSlideFromSection at h
  cases hm : exceptMapM (addElementToSlide H cfg (getLayoutPositions cfg.slideLayout))
      s.elements with
  | error e => rw [hm] at h; simp [Bind.bind, Except.bind] at h
  | ok rs =>
    rw [hm] at h
    simp only [Bind.bind, Except.bind] at h
    injection h with h
    subst h
    simp only [List.filterMap_cons, BackendCall.slideTitleOf]
    rw [filterMap_flatten_nil _ _ ?_]
    intro l hl
    rw [List.mem_map] at hl
    obtain ⟨r, hr, rfl⟩ := hl
    obtain ⟨x, -, hfx⟩ := exceptMapM_ok_mem hm r hr
    exact addElementToSlide_no_slide H cfg _ x r hfx

lemma map_eq_of_forall2 {α β γ : Type} {P : α → β → Prop} {g : β → γ} {gh : α → γ} :
    ∀ {xs : List α} {ys : List β}, List.Forall₂ P xs ys →
      (∀ x y, P x y → g y = gh x) → ys.map g = xs.map gh := by
  intro xs ys hf hgh
  induction hf with
  | nil => rfl
  | cons hxy _ ih => simp [hgh _ _ hxy, ih]

lemma filterMap_flatten_eq {α β : Type} (f : α → Option β) (L : List (List α)) :
    L.flatten.filterMap f = (L.map (·.filterMap f)).flatten := by
  induction L with
  | nil => rfl
  | cons l L ih => simp [List.filterMap_append, ih]

lemma flatten_singleton_map {α γ : Type} (g : α → γ) (xs : List α) :
    (xs.map (fun x => [g x])).flatten = xs.map g := by
  induction xs with
  | nil => rfl
  | cons x xs ih => simp [ih]

lemma createSlides_slide_titles (H : Handlers) (config : ConversionConfig)
    (content : MHTMLContent) (r : List BackendCall × List String)
    (hne : content.sections.isEmpty = false)
    (h : createSlides H config content = .ok r) :
    r.1.filterMap BackendCall.slideTitleOf = content.sections.map (·.title) := by
  unfold createSlides at h
  rw [hne] at h
  simp only [Bool.false_eq_true, if_false] at h
  cases hm : exceptMapM (createSlideFromSection H config) content.sections with
  | error e => rw [hm] at h; simp [Bind.bind, Except.bind] at h
  | ok rs =>
    rw [hm] at h
    simp only [Bind.bind, Except.bind] at h
    injection h with h
    subst h
    show (rs.map (·.1)).flatten.filterMap BackendCall.slideTitleOf = _
    rw [filterMap_flatten_eq, List.map_map]
    have h2 : rs.map (List.filterMap BackendCall.slideTitleOf ∘ (·.1)) =
        content.sections.map (fun s => [s.title]) :=
      map_eq_of_forall2 (exceptMapM_ok_forall2 _ _ _ hm)
        (fun s v hv => createSlideFromSection_titles H config s v hv)
    rw [h2, flatten_singleton_map]

/-- C3 counterexample: a paragraph followed by an image yields a section
whose element list is `[image, text]`, while document order is
`[text, image]` — section elements are grouped by kind, not in document
order. -/
theorem C3_element_order_counterexample :
    (parseHTML parsedDocImgEnv none orderCexDoc .BY_H1 none).sections.map
        (fun s => s.elements.map (fun e => e.content.kind)) = [[.image, .text]] ∧
    specDocOrderKinds orderCexDoc = [.text, .image] ∧
    ([ResKind.image, .text] : List ResKind) ≠ [.text, .image] :=
  ⟨by decide, by decide, by decide⟩

/-- C3 amended: every section produced by the pipeline has a non-empty
title; a section's elements are the concatenation of its images, tables,
lists and texts, in that fixed kind order (each group in document order),
not in overall document order; and `createSlides` emits one `addSlide`
call per section, in original section order. -/
theorem C3_sections_properties :
    (∀ (amb : Option String) (cs : List Dom) (strat : SplitStrategy) (sel : Option String),
       ∀ s ∈ extractSections amb cs strat sel, s.title ≠ "") ∧
    (∀ (env : ImgEnv) (amb : Option String) (cs : List Dom) (strat : SplitStrategy)
       (sel : Option String),
       ∀ s ∈ (parseHTML env amb cs strat sel).sections,
         s.elements.map (·.content.kind) =
           List.replicate (extractImages env s.content).length ResKind.image ++
           List.replicate (extractTables s.content).length ResKind.table ++
           List.replicate (extractLists s.content).length ResKind.list ++
           List.replicate (extractFormattedText s.content).length ResKind.text) ∧
    (∀ (H : Handlers) (config : ConversionConfig) (content : MHTMLContent)
       (r : List BackendCall × List String),
       content.sections.isEmpty = false →
       createSlides H config content = .ok r →
       r.1.filterMap BackendCall.slideTitleOf = content.sections.map (·.title)) := by
  refine ⟨extractSections_title_ne_empty, ?_, createSlides_slide_titles⟩
  intro env amb cs strat sel s hs
  simp only [parseHTML, List.mem_map] at hs
  obtain ⟨s0, -, rfl⟩ := hs
  exact sectionElements_kinds env s0.content

/-- Witness for C3 on concrete documents: the fallback section's title is
non-empty, the grouping equation holds on the mixed document, and a
complete conversion emits the single section title in order. -/
theorem C3_sections_properties_witness :
    (({ title := "Untitled", content := [], elements := [] } : MSection) ∈
       extractSections none [] .NO_SPLIT none ∧ ("Untitled" : String) ≠ "") ∧
    ((parseHTML parsedDocImgEnv none orderCexDoc .BY_H1 none).sections.isEmpty = false ∧
     ∃ r, createSlides imageFailHandlers sampleConfig
         (parseHTML parsedDocImgEnv none orderCexDoc .BY_H1 none) = .ok r ∧
       r.1.filterMap BackendCall.slideTitleOf =
         (parseHTML parsedDocImgEnv none orderCexDoc .BY_H1 none).sections.map (·.title)) := by
  have hmem : ({ title := "Untitled", content := [], elements := [] } : MSection) ∈
      extractSections none [] .NO_SPLIT none := by
    rw [show extractSections none [] .NO_SPLIT none =
      [{ title := "Untitled", content := [], elements := [] }] from rfl]
    exact List.mem_singleton.mpr rfl
  refine ⟨⟨hmem, C3_sections_properties.1 none [] .NO_SPLIT none _ hmem⟩, by decide, ?_⟩
  exact ⟨_, rfl,
    C3_sections_properties.2.2 imageFailHandlers sampleConfig _ _ (by decide) rfl⟩

/-! ## Claim C6 — section count for the BY_H1 strategy and Scenario A -/

lemma lt_mem_serialize_elem (t : String) (a : List (String × String)) (cs : List Dom) :
    ('<' : Char) ∈ (serialize (.elem t a cs)).data := by
  show ('<' : Char) ∈
    (("<" ++ t ++ serializeAttrs a ++ ">" ++ serializeList cs ++ "</" ++ t ++ ">")).data
  simp [String.data_append]

/-- A whitespace-only body (the `innerHTML.trim() === ''` check) contains
no element node, so no selector matches. -/
lemma collectForestPaths_nil_of_ws (tags : List String) (cs : List Dom)
    (h : jsTrim (serializeList cs) = "") : ∀ p i, collectForestPaths tags p i cs = [] := by
  induction cs with
  | nil => intro p i; rfl
  | cons c cs ih =>
    intro p i
    rw [jsTrim_eq_empty_iff] at h
    have hsplit : ∀ x ∈ (serialize c).data, isJsWs x := by
      intro x hx
      refine h x ?_
      show x ∈ (serialize c ++ serializeList cs).data
      rw [String.data_append]
      exact List.mem_append.mpr (Or.inl hx)
    have hrest : jsTrim (serializeList cs) = "" := by
      rw [jsTrim_eq_empty_iff]
      intro x hx
      refine h x ?_
      show x ∈ (serialize c ++ serializeList cs).data
      rw [String.data_append]
      exact List.mem_append.mpr (Or.inr hx)
    cases c with
    | text s =>
      show collectNodePaths tags (p ++ [i]) (.text s) ++ collectForestPaths tags p (i + 1) cs = []
      rw [ih hrest]
      rfl
    | elem t a ccs =>
      exfalso
      have hmem := hsplit _ (lt_mem_serialize_elem t a ccs)
      simp [isJsWs] at hmem

/-- C6 counterexample: on Scenario A's document each extracted section
holds two text elements (the heading is itself extracted as a text
resource alongside the paragraph), not one. -/
theorem C6_extractSections_counterexample :
    (parseHTML parsedDocImgEnv none scenarioADoc .BY_H1 none).sections.map
        (fun s => s.elements.length) = [2, 2] ∧
    (2 : Nat) ≠ 1 :=
  ⟨by decide, by decide⟩

/-- C6 amended: with the `BY_H1` strategy, `extractSections` returns
exactly one section per `h1` element of the body (nested or not), and one
fallback section when there is none; on Scenario A's input it returns two
sections titled "Intro" and "Details", each containing two text elements —
the heading and the paragraph, in that order. -/
theorem C6_extractSections_h1_count :
    (∀ (ambientTitle : Option String) (cs : List Dom),
       (extractSections ambientTitle cs .BY_H1 none).length =
         if (collectElems ["h1"] cs).length = 0 then 1
         else (collectElems ["h1"] cs).length) ∧
    (extractSections none scenarioADoc .BY_H1 none).map (fun s => s.title) =
      ["Intro", "Details"] ∧
    (parseHTML parsedDocImgEnv none scenarioADoc .BY_H1 none).sections.map
        (fun s => s.elements.map (fun e => e.content.kind)) =
      [[.text, .text], [.text, .text]] ∧
    (parseHTML parsedDocImgEnv none scenarioADoc .BY_H1 none).sections.map
        (fun s => s.elements.filterMap (fun e =>
          match e.content with
          | .text r => some r.content
          | _ => none)) =
      [["Intro", "Hello"], ["Details", "World"]] := by
  refine ⟨?_, by decide, by decide, by decide⟩
  intro ambientTitle cs
  unfold extractSections
  by_cases hempty : jsTrim (serializeList cs) = ""
  · rw [if_pos hempty]
    have hnil := collectForestPaths_nil_of_ws ["h1"] cs hempty [] 0
    simp [collectElems, collectWithPaths, hnil]
  · rw [if_neg hempty]
    show (sectionsBySelector ambientTitle cs "h1").length = _
    unfold sectionsBySelector
    by_cases hh : (collectWithPaths ["h1"] [] 0 cs).isEmpty
    · have heq : collectWithPaths ["h1"] [] 0 cs = [] := List.isEmpty_iff.mp hh
      simp [collectElems, heq, hh]
    · have hne : collectWithPaths ["h1"] [] 0 cs ≠ [] := by
        intro hn; rw [hn] at hh; simp at hh
      rw [if_neg (by simpa using hh)]
      simp only [List.length_map, List.enum_length, collectElems]
      rw [if_neg (by simpa using hne)]

/-! ## Claim C7 — extracted image dimensions -/

lemma jsOrNum_chain_pos (wAttr : Option Int) (nat : Nat) (cw : Option Int) (fb : Int)
    (hattr : ∀ v, wAttr = some v → 0 ≤ v) (hcw : ∀ v, cw = some v → 0 ≤ v) (hfb : 0 < fb) :
    0 < (jsOrNum (jsOrNum (jsOrNum (jsOrNum wAttr (some (nat : Int))) (some 0)) cw)
          (some fb)).getD fb := by
  rcases wAttr with _ | va <;> rcases cw with _ | vc <;>
    simp_all [jsOrNum, numTruthy] <;> split_ifs <;> simp_all <;> omega

lemma mem_of_mem_enum {α : Type} {l : List α} {k : Nat} {x : α} (h : (k, x) ∈ l.enum) :
    x ∈ l := by
  obtain ⟨-, hlt, heq⟩ := List.mem_enumFrom h
  simp only [Nat.sub_zero] at heq hlt
  rw [heq]
  exact List.getElem_mem _

/-- C7 counterexample: an explicit `width="-5"` attribute passes straight
through `parseInt(...) || naturalWidth || 0` and yields a negative width,
refuting "width/height are always positive integers after extraction". -/
theorem C7_extractImages_counterexample :
    (extractImages parsedDocImgEnv [negWidthImg]).map (fun r => (r.width, r.height)) =
      [(-5, 10)] ∧
    ¬(0 < (-5 : Int)) :=
  ⟨by decide, by decide⟩

/-- C7 amended: every image resource extracted by `extractImages` has
positive width and height, provided the explicit width/height attributes
and the computed-style sizes do not parse to negative numbers (negative
values pass through unchanged).  The resolution order is explicit
attribute, else natural size, else computed size, else the 300×200
fallback; for an unloaded, unstyled image without attributes the fallback
constants are used. -/
theorem C7_extractImages_dimensions :
    (∀ (env : ImgEnv) (cs : List Dom),
       (∀ k v, env.computedWidth k = some v → 0 ≤ v) →
       (∀ k v, env.computedHeight k = some v → 0 ≤ v) →
       imgAttrsNonnegCheck cs = true →
       ∀ r ∈ extractImages env cs, 0 < r.width ∧ 0 < r.height) ∧
    (extractImages parsedDocImgEnv [.elem "img" [("src", "a.png")] []]).map
        (fun r => (r.width, r.height)) = [(300, 200)] := by
  refine ⟨?_, by decide⟩
  intro env cs hcw hch hcheck r hr
  simp only [extractImages, List.mem_filterMap] at hr
  obtain ⟨⟨k, node⟩, hmem, hf⟩ := hr
  rcases node with s | ⟨t, a, c⟩
  · simp at hf
  · have hnode := mem_of_mem_enum hmem
    have hboth := List.all_eq_true.mp hcheck _ hnode
    simp only [Bool.and_eq_true] at hboth
    have haw : ∀ v, jsParseInt (jsOrStr ((getAttr a "width").getD "") "0") = some v →
        0 ≤ v := by
      intro v hv
      have := hboth.1
      rw [attrNonnegCheck, hv] at this
      exact_mod_cast of_decide_eq_true this
    have hah : ∀ v, jsParseInt (jsOrStr ((getAttr a "height").getD "") "0") = some v →
        0 ≤ v := by
      intro v hv
      have := hboth.2
      rw [attrNonnegCheck, hv] at this
      exact_mod_cast of_decide_eq_true this
    dsimp only at hf
    by_cases hsrc : (getAttr a "src").getD "" = ""
    · simp [hsrc] at hf
    · rw [if_neg hsrc] at hf
      obtain rfl := (Option.some.injEq _ _).mp hf
      exact ⟨jsOrNum_chain_pos _ _ _ _ haw (fun v hv => hcw k v hv) (by norm_num),
             jsOrNum_chain_pos _ _ _ _ hah (fun v hv => hch k v hv) (by norm_num)⟩

/-- Witness for C7 on a document whose image has positive attributes. -/
theorem C7_extractImages_dimensions_witness :
    (imgAttrsNonnegCheck [.elem "img" [("src", "a.png"), ("width", "120"), ("height", "80")] []]
       = true) ∧
    ∀ r ∈ extractImages parsedDocImgEnv
        [.elem "img" [("src", "a.png"), ("width", "120"), ("height", "80")] []],
      0 < r.width ∧ 0 < r.height :=
  ⟨by decide,
   C7_extractImages_dimensions.1 parsedDocImgEnv _
     (fun _ v h => nomatch h) (fun _ v h => nomatch h) (by decide)⟩

/-! ## Claim C8 — the hasNestedFormatting flag -/

/-- C8 counterexample: for `<p><b>x</b></p>`, `HTMLParser.extractFormattedText`
sets the paragraph's `hasNestedFormatting` although the fragment has exactly
one inline-formatting descendant, not more than one. -/
theorem C8_hasNestedFormatting_counterexample :
    (extractFormattedText nestedFmtCexDoc).map (fun r => r.format.hasNestedFormatting) =
      [some true, none] ∧
    (collectElems genNestedFmtTags [Dom.elem "b" [] [Dom.text "x"]]).length = 1 ∧
    ¬(1 < (collectElems genNestedFmtTags [Dom.elem "b" [] [Dom.text "x"]]).length) :=
  ⟨by decide, by decide, by decide⟩

/-- C8 amended: `TextElementGenerator.parseFormatting` sets the flag true
iff the fragment has more than one descendant among
strong/b/em/i/u/s/strike/del/sup/sub (as the claim states), but
`HTMLParser.extractFormattedText` sets it (to true) iff the element has at
least one descendant among b/strong/i/em/u/s/strike/sup/sub — a different
threshold and a tag list without `del`. -/
theorem C8_hasNestedFormatting_amended :
    (∀ fragment : List Dom,
       ((parseFormatting fragment).hasNestedFormatting = some true ↔
         1 < (collectElems genNestedFmtTags fragment).length)) ∧
    (∀ (anc : List String) (t : String) (attrs : List (String × String)) (cs : List Dom),
       ((mkFTResource anc t attrs cs).format.hasNestedFormatting = some true ↔
         (collectElems parserNestedFmtTags cs) ≠ [])) := by
  constructor
  · intro fragment
    simp [parseFormatting]
  · intro anc t attrs cs
    simp only [mkFTResource]
    split_ifs with h
    · have hne : collectElems parserNestedFmtTags cs ≠ [] := by
        intro hnil
        rw [hnil] at h
        simp at h
      simp [hne]
    · have hnil : collectElems parserNestedFmtTags cs = [] := by
        exact List.isEmpty_iff.mp (by simpa using h)
      simp [hnil]

/-! ## Claim C9 — run-flattening coverage -/

lemma contentsConcat_cons (r : TextResource) (rs : List TextResource) :
    contentsConcat (r :: rs) = r.content ++ contentsConcat rs := rfl

lemma contentsConcat_append (l1 l2 : List TextResource) :
    contentsConcat (l1 ++ l2) = contentsConcat l1 ++ contentsConcat l2 := by
  induction l1 with
  | nil => simp [contentsConcat]
  | cons r rs ih =>
    rw [List.cons_append, contentsConcat_cons, contentsConcat_cons, ih, String.append_assoc]

lemma textContent_elem (t : String) (a : List (String × String)) (cs : List Dom) :
    textContent (.elem t a cs) = textContentList cs := rfl

lemma pruneText_eq_empty_of_ws (c : Dom) (h : jsTrim (textContent c) = "") :
    pruneText c = "" := by
  cases c with
  | text s => simp [pruneText, show jsTrim s = "" from h]
  | elem t a cs => simp [pruneText, show jsTrim (textContentList cs) = "" from h]

lemma pruneTextList_eq_empty_of_ws (cs : List Dom)
    (h : jsTrim (textContentList cs) = "") : pruneTextList cs = "" := by
  induction cs with
  | nil => rfl
  | cons c cs ih =>
    rw [jsTrim_eq_empty_iff] at h
    have hc : jsTrim (textContent c) = "" := by
      rw [jsTrim_eq_empty_iff]
      intro x hx
      exact h x (by
        show x ∈ (textContent c ++ textContentList cs).data
        rw [String.data_append]
        exact List.mem_append.mpr (Or.inl hx))
    have hcs : jsTrim (textContentList cs) = "" := by
      rw [jsTrim_eq_empty_iff]
      intro x hx
      exact h x (by
        show x ∈ (textContent c ++ textContentList cs).data
        rw [String.data_append]
        exact List.mem_append.mpr (Or.inr hx))
    show pruneText c ++ pruneTextList cs = ""
    rw [pruneText_eq_empty_of_ws c hc, ih hcs]
    rfl

mutual

theorem processNode_contents (parent : Option (String × List (String × String))) :
    (n : Dom) → contentsConcat (processNodeForTextElements parent n) = pruneText n
  | .text s => by
    simp only [processNodeForTextElements, pruneText]
    split_ifs with h
    · rfl
    · cases parent with
      | none => simp [contentsConcat]
      | some p => rcases p with ⟨pt, pa⟩; simp [contentsConcat]
  | .elem t a cs => by
    simp only [processNodeForTextElements, pruneText, textContent_elem]
    split_ifs with h
    · rfl
    · match cs with
      | [.text s] =>
        have hs : ¬ jsTrim s = "" := by
          simpa [textContentList, textContent, String.append_empty] using h
        simp [contentsConcat, pruneTextList, pruneText, String.append_empty, hs]
      | [] => simp_all [textContentList, jsTrim, trimChars]
      | (.elem t' a' cs') :: rest =>
        exact processList_contents (some (t, a)) ((Dom.elem t' a' cs') :: rest)
      | (.text s) :: c2 :: rest =>
        exact processList_contents (some (t, a)) ((Dom.text s) :: c2 :: rest)

theorem processList_contents (parent : Option (String × List (String × String))) :
    (cs : List Dom) → contentsConcat (processChildNodes parent cs) = pruneTextList cs
  | [] => rfl
  | c :: cs => by
    show contentsConcat (processNodeForTextElements parent c ++ processChildNodes parent cs) =
      pruneText c ++ pruneTextList cs
    rw [contentsConcat_append, processNode_contents parent c, processList_contents parent cs]

end

/-- C9 counterexample: for the fragment `<b>a</b> <i>b</i>`, the runs
produced by `generateComplexTextElements` concatenate to `"ab"`, while the
fragment's plain text with whitespace collapsed is `"a b"` — the
whitespace-only text node is dropped, not collapsed. -/
theorem C9_runFlattening_counterexample :
    contentsConcat (generateComplexTextElements runFlattenCexFragment) = "ab" ∧
    textContentList runFlattenCexFragment = "a b" ∧
    collapseWs (textContentList runFlattenCexFragment) = "a b" ∧
    ("ab" : String) ≠ "a b" :=
  ⟨by decide, by decide, by decide, by decide⟩

/-- C9 amended: for every fragment, the concatenation of the `content`
fields of the runs produced by `generateComplexTextElements` equals the
fragment's text content with every maximal whitespace-only subtree dropped
(other whitespace is preserved verbatim, not collapsed); each run is still
one leaf text node or one element whose only child is a single text node. -/
theorem C9_runFlattening_concat (fragment : List Dom) :
    contentsConcat (generateComplexTextElements fragment) = pruneTextList fragment := by
  unfold generateComplexTextElements
  rw [processNode_contents none (Dom.elem "div" [] fragment)]
  simp only [pruneText, textContent_elem]
  split_ifs with h
  · exact (pruneTextList_eq_empty_of_ws fragment h).symm
  · rfl

/-! ## Claim C10 — calculateOptimalDimensions bounds -/

lemma jsRound_le_cast_of_lt {x : ℚ} {m : ℤ} (hx : x < (m : ℚ)) :
    ((jsRound x : ℤ) : ℚ) ≤ (m : ℚ) := by
  have : jsRound x < m + 1 := by
    rw [jsRound, Int.floor_lt]
    push_cast
    linarith
  exact_mod_cast Int.lt_add_one_iff.mp this

lemma cast_add_half_le_of_round_gt {x : ℚ} {m : ℤ} (h : (m : ℚ) < ((jsRound x : ℤ) : ℚ)) :
    (m : ℚ) + 1/2 ≤ x := by
  have hm : m + 1 ≤ jsRound x := Int.lt_iff_add_one_le.mp (by exact_mod_cast h)
  have := Int.le_floor.mp hm
  push_cast at this
  linarith

lemma calcOptimal_width_le (w h mw mi : ℤ) (par : Bool) (hw : 0 < w) (hh : 0 < h)
    (hmw : 0 < mw) (hmi : 0 < mi) :
    (calculateOptimalDimensions (w : ℚ) (h : ℚ) (some (mw : ℚ)) (some (mi : ℚ)) par).1 ≤
      (mw : ℚ) := by
  have hwq : (0 : ℚ) < (w : ℚ) := by exact_mod_cast hw
  have hhq : (0 : ℚ) < (h : ℚ) := by exact_mod_cast hh
  have hmwq : (0 : ℚ) < (mw : ℚ) := by exact_mod_cast hmw
  have hmiq : (0 : ℚ) < (mi : ℚ) := by exact_mod_cast hmi
  simp only [calculateOptimalDimensions, qTruthy]
  split_ifs with h0 h1 h2 h3 h4 h5 h6
  · simp at h0
    linarith [h0.1]
  · obtain ⟨-, htrig⟩ := h3
    simp only [gt_iff_lt] at htrig
    have hstep : (mi : ℚ) + 1/2 ≤ (mw : ℚ) / w * h :=
      cast_add_half_le_of_round_gt htrig
    have key : ((mi : ℚ) + 1/2) * w ≤ (mw : ℚ) * h := by
      rw [div_mul_eq_mul_div] at hstep
      calc ((mi : ℚ) + 1/2) * w ≤ ((mw : ℚ) * h / w) * w :=
            mul_le_mul_of_nonneg_right hstep (le_of_lt hwq)
        _ = (mw : ℚ) * h := by field_simp
    have hlt : (mi : ℚ) / h * w < (mw : ℚ) := by
      rw [div_mul_eq_mul_div, div_lt_iff₀ hhq]
      nlinarith
    simpa using jsRound_le_cast_of_lt hlt
  · simp
  · simp
  · simp
  · push_neg at h1
    have hwle : (w : ℚ) ≤ (mw : ℚ) := h1 (ne_of_gt hmwq)
    obtain ⟨-, htrig⟩ := h5
    simp only [gt_iff_lt] at htrig
    have hlt : (mi : ℚ) / h * w < (mw : ℚ) := by
      rw [div_mul_eq_mul_div, div_lt_iff₀ hhq]
      nlinarith
    simpa using jsRound_le_cast_of_lt hlt
  · push_neg at h1
    simpa using h1 (ne_of_gt hmwq)
  · push_neg at h1
    simpa using h1 (ne_of_gt hmwq)

lemma calcOptimal_width_le_noMaxHeight (w h mw : ℤ) (par : Bool) (hw : 0 < w)
    (hh : 0 < h) (hmw : 0 < mw) :
    (calculateOptimalDimensions (w : ℚ) (h : ℚ) (some (mw : ℚ)) none par).1 ≤ (mw : ℚ) := by
  have hmwq : (0 : ℚ) < (mw : ℚ) := by exact_mod_cast hmw
  simp only [calculateOptimalDimensions, qTruthy]
  split_ifs with h0 h1 <;> simp_all

lemma calcOptimal_height_le (w h : ℚ) (mw : Option ℚ) (mh : ℚ) (par : Bool)
    (hmh : 0 < mh) : (calculateOptimalDimensions w h mw (some mh) par).2 ≤ mh := by
  have hmne : (mh ≠ 0) := ne_of_gt hmh
  simp only [calculateOptimalDimensions, qTruthy]
  rw [if_neg (by simp [hmne])]
  cases mw with
  | none => split_ifs with h1 <;> simp_all
  | some m => split_ifs <;> simp_all

/-- C10 counterexample: integer image 2×10 with fractional bounds
`maxWidth = 8/5`, `maxHeight = 15/2` and `preserveAspectRatio`: the second
aspect-ratio rewrite rounds the width back up to 2, which exceeds
`maxWidth`. -/
theorem C10_calculateOptimalDimensions_counterexample :
    calculateOptimalDimensions 2 10 (some (8/5)) (some (15/2)) true = (2, 15/2) ∧
    ¬((calculateOptimalDimensions 2 10 (some (8/5)) (some (15/2)) true).1 ≤ 8/5) := by
  have h1 : ⌊(8/5 / 2 * 10 : ℚ) + 1/2⌋ = 8 := by norm_num
  have h2 : ⌊(15/2 / 10 * 2 : ℚ) + 1/2⌋ = 2 := by norm_num
  have he : calculateOptimalDimensions 2 10 (some (8/5)) (some (15/2)) true = (2, 15/2) := by
    simp only [calculateOptimalDimensions, qTruthy, jsRound]
    norm_num [h1, h2]
  exact ⟨he, by rw [he]; norm_num⟩

/-- C10 amended: `calculateOptimalDimensions` returns the input unchanged
when neither bound is given; a provided positive `maxHeight` is never
exceeded by the returned height; and a provided positive *integer*
`maxWidth` is never exceeded by the returned width provided `maxHeight`,
when present, is a positive integer too (rounding can push the width above
a fractional `maxWidth`), for either value of `preserveAspectRatio`. -/
theorem C10_calculateOptimalDimensions_amended :
    (∀ (w h : ℚ) (par : Bool), calculateOptimalDimensions w h none none par = (w, h)) ∧
    (∀ (w h mw mi : ℤ) (par : Bool), 0 < w → 0 < h → 0 < mw → 0 < mi →
       (calculateOptimalDimensions (w : ℚ) (h : ℚ) (some (mw : ℚ)) (some (mi : ℚ)) par).1 ≤
         (mw : ℚ)) ∧
    (∀ (w h mw : ℤ) (par : Bool), 0 < w → 0 < h → 0 < mw →
       (calculateOptimalDimensions (w : ℚ) (h : ℚ) (some (mw : ℚ)) none par).1 ≤ (mw : ℚ)) ∧
    (∀ (w h : ℚ) (mw : Option ℚ) (mh : ℚ) (par : Bool), 0 < mh →
       (calculateOptimalDimensions w h mw (some mh) par).2 ≤ mh) := by
  refine ⟨?_, ?_, ?_, ?_⟩
  · intro w h par
    simp [calculateOptimalDimensions, qTruthy]
  · intro w h mw mi par hw hh hmw hmi
    exact calcOptimal_width_le w h mw mi par hw hh hmw hmi
  · intro w h mw par hw hh hmw
    exact calcOptimal_width_le_noMaxHeight w h mw par hw hh hmw
  · intro w h mw mh par hmh
    exact calcOptimal_height_le w h mw mh par hmh

/-- Witness for C10 at the concrete call 120×80 with integer bounds. -/
theorem C10_calculateOptimalDimensions_amended_witness :
    (0 : ℤ) < 120 ∧ (0 : ℤ) < 80 ∧ (0 : ℤ) < 50 ∧ (0 : ℤ) < 60 ∧ (0 : ℚ) < 60 ∧
    (calculateOptimalDimensions ((120 : ℤ) : ℚ) ((80 : ℤ) : ℚ) (some ((50 : ℤ) : ℚ))
       (some ((60 : ℤ) : ℚ)) true).1 ≤ ((50 : ℤ) : ℚ) ∧
    (calculateOptimalDimensions ((120 : ℤ) : ℚ) ((80 : ℤ) : ℚ) (some ((50 : ℤ) : ℚ))
       (some (60 : ℚ)) true).2 ≤ (60 : ℚ) :=
  ⟨by norm_num, by norm_num, by norm_num, by norm_num, by norm_num,
   C10_calculateOptimalDimensions_amended.2.1 120 80 50 60 true (by norm_num)
     (by norm_num) (by norm_num) (by norm_num),
   C10_calculateOptimalDimensions_amended.2.2.2 ((120 : ℤ) : ℚ) ((80 : ℤ) : ℚ)
     (some ((50 : ℤ) : ℚ)) 60 true (by norm_num)⟩

/-! ## Claim C5 — idempotence of normalizeUrl -/

/-- C5: `normalizeUrl` is idempotent on every input string. -/
theorem C5_normalizeUrl_idempotent (s : String) :
    normalizeUrl (normalizeUrl s) = normalizeUrl s := by
  unfold normalizeUrl
  exact congrArg String.mk (normalizeUrlChars_idem s.toList)

end HtmlToPptx
